import Mathlib

/-!
# NPDM metadata parsing and capability validation (`ldr_npdm.cpp`)

A shallow embedding of `NpdmUtils::LoadNpdmInternal`,
`NpdmUtils::ValidateCapabilityAgainstRestrictions`,
`NpdmUtils::ValidateCapabilities`, `NpdmUtils::GetApplicationTypeRaw` and of the
loader with its cache (`OpenNpdm`, `LoadNpdm`, `LoadNpdmFromCache`,
`InvalidateCache`), followed by the properties established about them.

Conventions.
* A `u32` is a natural number; the capability lists are lists of such words.
  Right shifts and bitwise ands never leave the 32-bit range; the two places
  where the source adds or complements `u32` values carry an explicit
  `% 2 ^ 32` (respectively an exclusive or with `0xFFFFFFFF`).
* A C array walked by an index is a list walked from its head.
* A `for` loop is a recursive function over the remaining restriction words:
  `continue` is the recursive call, `break` is the value returned after the
  loop, `return` is the value itself.
-/

namespace NpdmUtils

/-! ## Result codes -/

/-- The result codes used by `ldr_npdm.cpp`. -/
inductive Result where
  | ResultSuccess
  | ResultFsPathNotFound
  | ResultLoaderTooLargeMeta
  | ResultLoaderInvalidMeta
  | ResultLoaderInvalidCapabilityKernelFlags
  | ResultLoaderInvalidCapabilitySyscallMask
  | ResultLoaderInvalidCapabilityMapRange
  | ResultLoaderInvalidCapabilityMapPage
  | ResultLoaderInvalidCapabilityInterruptPair
  | ResultLoaderInvalidCapabilityApplicationType
  | ResultLoaderInvalidCapabilityKernelVersion
  | ResultLoaderInvalidCapabilityHandleTable
  | ResultLoaderInvalidCapabilityDebugFlags
  | ResultLoaderUnknownCapability
  deriving DecidableEq

open Result

/-! ## Capability validation -/

/-- The loop `while (desc & 1) { desc >>= 1; low_bits++; }` of
`ValidateCapabilityAgainstRestrictions`, run for at most `fuel` iterations.
It returns the final `(desc, low_bits)`. For a 32-bit `desc` the loop body runs
at most 32 times, after which `desc` is zero and the loop condition is false. -/
def lowBitsLoop : Nat → Nat → Nat → Nat × Nat
  | 0, desc, low_bits => (desc, low_bits)
  | fuel + 1, desc, low_bits =>
    if desc &&& 1 ≠ 0 then lowBitsLoop fuel (desc >>> 1) (low_bits + 1)
    else (desc, low_bits)

/-- Case 3 (kernel flags): the loop over the restriction words. The first
restriction word with tag `0x7` decides: every failed comparison is a `break`. -/
def kernelFlagsLoop (desc : Nat) : List Nat → Result
  | [] => ResultLoaderInvalidCapabilityKernelFlags
  | r :: rs =>
    if r &&& 0xF = 0x7 then
      let r_desc := r >>> 4
      let highest_thread_prio := desc &&& 0x3F
      let r_highest_thread_prio := r_desc &&& 0x3F
      let desc := desc >>> 6
      let r_desc := r_desc >>> 6
      let lowest_thread_prio := desc &&& 0x3F
      let r_lowest_thread_prio := r_desc &&& 0x3F
      let desc := desc >>> 6
      let r_desc := r_desc >>> 6
      let lowest_cpu_id := desc &&& 0xFF
      let r_lowest_cpu_id := r_desc &&& 0xFF
      let desc := desc >>> 8
      let r_desc := r_desc >>> 8
      let highest_cpu_id := desc &&& 0xFF
      let r_highest_cpu_id := r_desc &&& 0xFF
      if highest_thread_prio > r_highest_thread_prio then
        ResultLoaderInvalidCapabilityKernelFlags
      else if lowest_thread_prio > highest_thread_prio then
        ResultLoaderInvalidCapabilityKernelFlags
      else if lowest_thread_prio < r_lowest_thread_prio then
        ResultLoaderInvalidCapabilityKernelFlags
      else if lowest_cpu_id < r_lowest_cpu_id then
        ResultLoaderInvalidCapabilityKernelFlags
      else if lowest_cpu_id > r_highest_cpu_id then
        ResultLoaderInvalidCapabilityKernelFlags
      else if highest_cpu_id > r_highest_cpu_id then
        ResultLoaderInvalidCapabilityKernelFlags
      else
        ResultSuccess
    else kernelFlagsLoop desc rs

/-- Case 4 (syscall mask): a restriction word with tag `0xF` and another base
is skipped (`continue`); the first one with the same base decides (`break` on a
mask that is not covered, `return ResultSuccess` otherwise). -/
def syscallMaskLoop (desc : Nat) : List Nat → Result
  | [] => ResultLoaderInvalidCapabilitySyscallMask
  | r :: rs =>
    if r &&& 0x1F = 0xF then
      let r_desc := r >>> 5
      let syscall_base := desc >>> 24
      let r_syscall_base := r_desc >>> 24
      if syscall_base ≠ r_syscall_base then syscallMaskLoop desc rs
      else
        let syscall_mask := desc &&& 0xFFFFFF
        let r_syscall_mask := r_desc &&& 0xFFFFFF
        if r_syscall_mask &&& syscall_mask ≠ syscall_mask then
          ResultLoaderInvalidCapabilitySyscallMask
        else ResultSuccess
    else syscallMaskLoop desc rs

/-- Case 6 (map range): the loop `for (i = 0; i < num_restrict_caps - 1; i++)`.
The list is the restriction array from index `i` on; the loop body runs only
while a word at index `i + 1` exists. Inside the body `++i` moves to the second
word of the pair, so a `continue` resumes after the pair. -/
def mapRangeLoop (desc next_desc base_addr base_end : Nat) : List Nat → Result
  | r :: r_next :: rs =>
    if r &&& 0x7F = 0x3F then
      let r_desc := r >>> 7
      if r_next &&& 0x7F ≠ 0x3F then ResultLoaderInvalidCapabilityMapRange
      else
        let r_next_desc := r_next >>> 7
        let r_base_addr := r_desc &&& 0xFFFFFF
        let r_base_size := r_next_desc &&& 0xFFFFFF
        if r_base_size >>> 20 ≠ 0 then ResultLoaderInvalidCapabilityMapRange
        else
          let r_base_end := (r_base_addr + r_base_size) % 2 ^ 32
          if ((r_desc >>> 24) &&& 1) ^^^ ((desc >>> 24) &&& 1) ≠ 0 then
            mapRangeLoop desc next_desc base_addr base_end rs
          else if ((r_next_desc >>> 24) &&& 1) ^^^ ((next_desc >>> 24) &&& 1) ≠ 0 then
            mapRangeLoop desc next_desc base_addr base_end rs
          else if base_addr < r_base_addr ∨ base_end > r_base_end then
            mapRangeLoop desc next_desc base_addr base_end rs
          else ResultSuccess
    else mapRangeLoop desc next_desc base_addr base_end (r_next :: rs)
  | _ => ResultLoaderInvalidCapabilityMapRange

/-- Case 6 after the second requested word `next_cap` has been read. -/
def mapRangeCheck (desc next_cap : Nat) (restrict_caps : List Nat) : Result :=
  if next_cap &&& 0x7F ≠ 0x3F then ResultLoaderInvalidCapabilityMapRange
  else
    let next_desc := next_cap >>> 7
    let base_addr := desc &&& 0xFFFFFF
    let base_size := next_desc &&& 0xFFFFFF
    if base_size >>> 20 ≠ 0 then ResultLoaderInvalidCapabilityMapRange
    else
      let base_end := (base_addr + base_size) % 2 ^ 32
      if restrict_caps.length < 2 then ResultLoaderInvalidCapabilityMapRange
      else mapRangeLoop desc next_desc base_addr base_end restrict_caps

/-- Case 7 (map normal page): some restriction word with tag `0x7F` must carry
the same page; every mismatch is a `continue`. -/
def mapPageLoop (desc : Nat) : List Nat → Result
  | [] => ResultLoaderInvalidCapabilityMapPage
  | r :: rs =>
    if r &&& 0xFF = 0x7F then
      let r_desc := r >>> 8
      if r_desc ≠ desc then mapPageLoop desc rs else ResultSuccess
    else mapPageLoop desc rs

/-- Case 11: the inner loop
`for (i = 0; i < num_restrict_caps && !found; i++)` for one IRQ. -/
def irqFoundLoop (irq : Nat) : Bool → List Nat → Bool
  | found, [] => found
  | found, r :: rs =>
    if found then found
    else if r &&& 0xFFF = 0x7FF then
      let r_desc := r >>> 12
      let r_irq_0 := r_desc &&& 0x3FF
      let r_desc := r_desc >>> 10
      let r_irq_1 := r_desc &&& 0x3FF
      let found := found || (irq == r_irq_0 || irq == r_irq_1)
      let found := found || (r_irq_0 == 0x3FF && r_irq_1 == 0x3FF)
      irqFoundLoop irq found rs
    else irqFoundLoop irq found rs

/-- Case 11 (IRQ pair): the outer loop `for (irq_i = 0; irq_i < 2; irq_i++)`,
with `n` the number of iterations still to run. -/
def irqPairLoop (restrict_caps : List Nat) : Nat → Nat → Result
  | 0, _ => ResultSuccess
  | n + 1, desc =>
    let irq := desc &&& 0x3FF
    let desc := desc >>> 10
    if irq ≠ 0x3FF then
      if ¬ irqFoundLoop irq false restrict_caps = true then
        ResultLoaderInvalidCapabilityInterruptPair
      else irqPairLoop restrict_caps n desc
    else irqPairLoop restrict_caps n desc

/-- The search shared by cases 13, 14 and 16: `r_desc` starts at 0 and takes the
payload of the first restriction word whose low bits `r & mask` equal `tag`.
With no restriction word at all the source sets `r_desc = 0` in the `else` of
`if (num_restrict_caps)`, which is the value for the empty list here. -/
def firstPayload (mask tag shift : Nat) : List Nat → Nat
  | [] => 0
  | r :: rs => if r &&& mask = tag then r >>> shift else firstPayload mask tag shift rs

/-- Case 15 (handle table size): the first restriction word with tag `0x7FFF`
decides. -/
def handleTableLoop (desc : Nat) : List Nat → Result
  | [] => ResultLoaderInvalidCapabilityHandleTable
  | r :: rs =>
    if r &&& 0xFFFF = 0x7FFF then
      let r_desc := r >>> 16
      let desc := desc &&& 0x3FF
      let r_desc := r_desc &&& 0x3FF
      if desc > r_desc then ResultLoaderInvalidCapabilityHandleTable else ResultSuccess
    else handleTableLoop desc rs

/-- `NpdmUtils::ValidateCapabilityAgainstRestrictions`. The requested words
from `cur_cap` on are `cap :: rest` (the caller guarantees
`caps_remaining > 0`). The function returns the result code together with the
requested words that remain after the call. -/
def ValidateCapabilityAgainstRestrictions (restrict_caps : List Nat) (cap : Nat)
    (rest : List Nat) : Result × List Nat :=
  let counted := lowBitsLoop 32 cap 0
  let low_bits := counted.2
  let desc := counted.1 >>> 1
  match low_bits with
  | 3 => (kernelFlagsLoop desc restrict_caps, rest)
  | 4 => (syscallMaskLoop desc restrict_caps, rest)
  | 6 =>
    match rest with
    | [] => (ResultLoaderInvalidCapabilityMapRange, [])
    | next_cap :: rest2 => (mapRangeCheck desc next_cap restrict_caps, rest2)
  | 7 => (mapPageLoop desc restrict_caps, rest)
  | 11 => (irqPairLoop restrict_caps 2 desc, rest)
  | 13 =>
    let r_desc := firstPayload 0x3FFF 0x1FFF 14 restrict_caps
    if desc = r_desc then (ResultSuccess, rest)
    else (ResultLoaderInvalidCapabilityApplicationType, rest)
  | 14 =>
    let r_desc := firstPayload 0x7FFF 0x3FFF 15 restrict_caps
    if desc = r_desc then (ResultSuccess, rest)
    else (ResultLoaderInvalidCapabilityKernelVersion, rest)
  | 15 => (handleTableLoop desc restrict_caps, rest)
  | 16 =>
    let r_desc := firstPayload 0x1FFFF 0xFFFF 17 restrict_caps
    if desc &&& (r_desc ^^^ 0xFFFFFFFF) = 0 then (ResultSuccess, rest)
    else (ResultLoaderInvalidCapabilityDebugFlags, rest)
  | 32 => (ResultSuccess, rest)
  | _ => (ResultLoaderUnknownCapability, rest)

/-- The loop `while (remaining) { R_TRY(...); }` of `ValidateCapabilities`, run
for at most `fuel` iterations; `none` means the fuel ran out before the loop
ended. -/
def validateLoop (restrict_caps : List Nat) : Nat → List Nat → Option Result
  | _, [] => some ResultSuccess
  | 0, _ :: _ => none
  | fuel + 1, cap :: rest =>
    match ValidateCapabilityAgainstRestrictions restrict_caps cap rest with
    | (ResultSuccess, remaining) => validateLoop restrict_caps fuel remaining
    | (rc, _) => some rc

/-- `NpdmUtils::ValidateCapabilities(acid_caps, aci0_caps)`. Every iteration
consumes at least one requested word, so `num_aci0_caps` iterations are enough
(`ValidateCapabilities_total`). -/
def ValidateCapabilities (acid_caps aci0_caps : List Nat) : Option Result :=
  validateLoop acid_caps aci0_caps.length aci0_caps

/-! ## Metadata parsing -/

/-- Sizes, magic numbers and field offsets of the structures declared in
`ldr_npdm.hpp`. That header is not among the sources at hand, so everything it
declares is a parameter of the model: `sizeof_*` are the `sizeof` values the
parser compares against, the other fields are the byte offsets of the members
the parser reads. -/
structure NpdmLayout where
  sizeof_buffer : Nat
  sizeof_NpdmHeader : Nat
  sizeof_NpdmAci0 : Nat
  sizeof_NpdmAcid : Nat
  MAGIC_META : Nat
  MAGIC_ACI0 : Nat
  MAGIC_ACID : Nat
  header_magic : Nat
  header_mmu_flags : Nat
  header_aci0_offset : Nat
  header_aci0_size : Nat
  header_acid_offset : Nat
  header_acid_size : Nat
  aci0_magic : Nat
  aci0_fah_offset : Nat
  aci0_fah_size : Nat
  aci0_sac_offset : Nat
  aci0_sac_size : Nat
  aci0_kac_offset : Nat
  aci0_kac_size : Nat
  acid_magic : Nat
  acid_fac_offset : Nat
  acid_fac_size : Nat
  acid_sac_offset : Nat
  acid_sac_size : Nat
  acid_kac_offset : Nat
  acid_kac_size : Nat

/-- The structural views of `NpdmInfo`. A pointer into `cache->buffer` is the
byte offset from the start of the buffer; `none` is the null pointer. -/
structure NpdmInfo where
  header : Option Nat := none
  acid : Option Nat := none
  aci0 : Option Nat := none
  acid_fac : Option Nat := none
  acid_sac : Option Nat := none
  acid_kac : Option Nat := none
  aci0_fah : Option Nat := none
  aci0_sac : Option Nat := none
  aci0_kac : Option Nat := none
  title_id : Nat := 0
  deriving DecidableEq

/-- The structure `NpdmCache`: the views and the byte buffer they point into. -/
structure NpdmCache where
  info : NpdmInfo
  buffer : List Nat
  deriving DecidableEq

/-- An open metadata file: its bytes, and how many bytes `fread` can deliver
before it stops (at least the length of `contents` for a healthy file). -/
structure NpdmFile where
  contents : List Nat
  readable : Nat
  deriving DecidableEq

/-- One byte of memory at `buffer + addr`. Addresses past the end of the list
read as 0; no statement below depends on such a read. -/
def readU8 (buffer : List Nat) (addr : Nat) : Nat :=
  buffer.getD addr 0

/-- A little-endian `u32` member at `buffer + addr`. -/
def readU32 (buffer : List Nat) (addr : Nat) : Nat :=
  readU8 buffer addr + 2 ^ 8 * readU8 buffer (addr + 1)
    + 2 ^ 16 * readU8 buffer (addr + 2) + 2 ^ 24 * readU8 buffer (addr + 3)

/-- The statically zeroed cache `g_npdm_cache = {0}`. -/
def zeroCache (L : NpdmLayout) : NpdmCache :=
  { info := {}, buffer := List.replicate L.sizeof_buffer 0 }

/-- The three sub-region checks of one table (lines 136, 142, 148 for ACI0 and
166, 172, 178 for ACID share this shape): `size > parent_size`,
`offset < sizeof(parent header)`, and the `u32` sum `offset + size` compared
with `parent_size`. It is `true` when the source returns
`ResultLoaderInvalidMeta`. -/
def subRegionRejected (offset size sizeof_parent parent_size : Nat) : Bool :=
  decide (size > parent_size) || decide (offset < sizeof_parent)
    || decide ((offset + size) % 2 ^ 32 > parent_size)

/-- `NpdmUtils::LoadNpdmInternal(f_npdm, cache)`; `fw_700` is
`GetRuntimeFirmwareVersion() >= FirmwareVersion_700`. It returns the result code
and the cache as the call leaves it. -/
def LoadNpdmInternal (L : NpdmLayout) (fw_700 : Bool) (f_npdm : Option NpdmFile)
    (cache : NpdmCache) : Result × NpdmCache :=
  let cache : NpdmCache := { cache with info := {} }
  match f_npdm with
  | none => (ResultFsPathNotFound, cache)
  | some f =>
    let npdm_size := f.contents.length
    if npdm_size > L.sizeof_buffer then (ResultLoaderTooLargeMeta, cache)
    else
      let n_read := min f.readable npdm_size
      let buffer := f.contents.take n_read ++ cache.buffer.drop n_read
      let cache : NpdmCache := { cache with buffer := buffer }
      if n_read ≠ npdm_size then (ResultLoaderTooLargeMeta, cache)
      else if npdm_size < L.sizeof_NpdmHeader then (ResultLoaderInvalidMeta, cache)
      else
        let info : NpdmInfo := { cache.info with header := some 0 }
        let bad (info : NpdmInfo) : Result × NpdmCache :=
          (ResultLoaderInvalidMeta, { cache with info := info })
        if readU32 buffer L.header_magic ≠ L.MAGIC_META then bad info
        else if readU8 buffer L.header_mmu_flags > (if fw_700 then 0x1F else 0xF) then bad info
        else
          let aci0_offset := readU32 buffer L.header_aci0_offset
          let aci0_size := readU32 buffer L.header_aci0_size
          let acid_offset := readU32 buffer L.header_acid_offset
          let acid_size := readU32 buffer L.header_acid_size
          if aci0_offset < L.sizeof_NpdmHeader ∨ aci0_size < L.sizeof_NpdmAci0
              ∨ (aci0_offset + aci0_size) % 2 ^ 32 > npdm_size then bad info
          else
            let aci0 := aci0_offset
            let info := { info with aci0 := some aci0 }
            if readU32 buffer (aci0 + L.aci0_magic) ≠ L.MAGIC_ACI0 then bad info
            else
              let fah_offset := readU32 buffer (aci0 + L.aci0_fah_offset)
              let fah_size := readU32 buffer (aci0 + L.aci0_fah_size)
              if subRegionRejected fah_offset fah_size L.sizeof_NpdmAci0 aci0_size then bad info
              else
                let info := { info with aci0_fah := some (aci0 + fah_offset) }
                let sac_offset := readU32 buffer (aci0 + L.aci0_sac_offset)
                let sac_size := readU32 buffer (aci0 + L.aci0_sac_size)
                if subRegionRejected sac_offset sac_size L.sizeof_NpdmAci0 aci0_size then bad info
                else
                  let info := { info with aci0_sac := some (aci0 + sac_offset) }
                  let kac_offset := readU32 buffer (aci0 + L.aci0_kac_offset)
                  let kac_size := readU32 buffer (aci0 + L.aci0_kac_size)
                  if subRegionRejected kac_offset kac_size L.sizeof_NpdmAci0 aci0_size then bad info
                  else
                    let info := { info with aci0_kac := some (aci0 + kac_offset) }
                    if acid_offset < L.sizeof_NpdmHeader ∨ acid_size < L.sizeof_NpdmAcid
                        ∨ (acid_offset + acid_size) % 2 ^ 32 > npdm_size then bad info
                    else
                      let acid := acid_offset
                      let info := { info with acid := some acid }
                      if readU32 buffer (acid + L.acid_magic) ≠ L.MAGIC_ACID then bad info
                      else
                        let fac_offset := readU32 buffer (acid + L.acid_fac_offset)
                        let fac_size := readU32 buffer (acid + L.acid_fac_size)
                        if subRegionRejected fac_offset fac_size L.sizeof_NpdmAcid acid_size then
                          bad info
                        else
                          let info := { info with acid_fac := some (acid + fac_offset) }
                          let sac_offset := readU32 buffer (acid + L.acid_sac_offset)
                          let sac_size := readU32 buffer (acid + L.acid_sac_size)
                          if subRegionRejected sac_offset sac_size L.sizeof_NpdmAcid acid_size then
                            bad info
                          else
                            let info := { info with acid_sac := some (acid + sac_offset) }
                            let kac_offset := readU32 buffer (acid + L.acid_kac_offset)
                            let kac_size := readU32 buffer (acid + L.acid_kac_size)
                            if subRegionRejected kac_offset kac_size L.sizeof_NpdmAcid acid_size then
                              bad info
                            else
                              let info := { info with acid_kac := some (acid + kac_offset) }
                              (ResultSuccess, { cache with info := info })

/-! ### A concrete layout and concrete files -/

/-- The NPDM layout: a 0x80-byte header with the four region words at its end,
a 0x40-byte ACI0 header, a 0x240-byte ACID header whose first 0x200 bytes are
signature and key, and a 0x8000-byte cache buffer. -/
def npdmLayout : NpdmLayout where
  sizeof_buffer := 0x8000
  sizeof_NpdmHeader := 0x80
  sizeof_NpdmAci0 := 0x40
  sizeof_NpdmAcid := 0x240
  MAGIC_META := 0x4154454D
  MAGIC_ACI0 := 0x30494341
  MAGIC_ACID := 0x44494341
  header_magic := 0x0
  header_mmu_flags := 0xC
  header_aci0_offset := 0x70
  header_aci0_size := 0x74
  header_acid_offset := 0x78
  header_acid_size := 0x7C
  aci0_magic := 0x0
  aci0_fah_offset := 0x20
  aci0_fah_size := 0x24
  aci0_sac_offset := 0x28
  aci0_sac_size := 0x2C
  aci0_kac_offset := 0x30
  aci0_kac_size := 0x34
  acid_magic := 0x200
  acid_fac_offset := 0x220
  acid_fac_size := 0x224
  acid_sac_offset := 0x228
  acid_sac_size := 0x22C
  acid_kac_offset := 0x230
  acid_kac_size := 0x234

/-- The four bytes of a little-endian `u32`. -/
def le32 (v : Nat) : List Nat :=
  [v % 256, v / 2 ^ 8 % 256, v / 2 ^ 16 % 256, v / 2 ^ 24 % 256]

/-- A header in `npdmLayout`: magic, zero flags, and the four region words. -/
def headerBytes (aci0_offset aci0_size acid_offset acid_size : Nat) : List Nat :=
  le32 0x4154454D ++ List.replicate 0x6C 0
    ++ le32 aci0_offset ++ le32 aci0_size ++ le32 acid_offset ++ le32 acid_size

/-- An ACI0 header in `npdmLayout`: magic and the three offset/size pairs. -/
def aci0Bytes (fah_offset fah_size sac_offset sac_size kac_offset kac_size : Nat) :
    List Nat :=
  le32 0x30494341 ++ List.replicate 0x1C 0
    ++ le32 fah_offset ++ le32 fah_size ++ le32 sac_offset ++ le32 sac_size
    ++ le32 kac_offset ++ le32 kac_size ++ List.replicate 8 0

/-- An ACID header in `npdmLayout`: signature and key left zero, magic and the
three offset/size pairs. -/
def acidBytes (fac_offset fac_size sac_offset sac_size kac_offset kac_size : Nat) :
    List Nat :=
  List.replicate 0x200 0 ++ le32 0x44494341 ++ List.replicate 0x1C 0
    ++ le32 fac_offset ++ le32 fac_size ++ le32 sac_offset ++ le32 sac_size
    ++ le32 kac_offset ++ le32 kac_size ++ List.replicate 8 0

/-- A healthy file holding the given bytes. -/
def fileOf (bytes : List Nat) : NpdmFile :=
  { contents := bytes, readable := bytes.length }

/-- A 0x300-byte file whose header announces the ACI0 region at offset 0x80 with
size 0xFFFFFFC0: the exact sum is 0x100000040, the 32-bit sum is 0x40. -/
def wrappedAci0File : NpdmFile :=
  fileOf (headerBytes 0x80 0xFFFFFFC0 0xC0 0x240
    ++ aci0Bytes 0x40 0 0x40 0 0x40 0
    ++ acidBytes 0x240 0 0x240 0 0x240 0)

/-- A 0x300-byte file with sound regions whose ACI0 file-access-header
sub-region has offset 0xFFFFFFF0 and size 0x20: the exact sum is 0x100000010,
the 32-bit sum is 0x10. -/
def wrappedFahFile : NpdmFile :=
  fileOf (headerBytes 0x80 0x40 0xC0 0x240
    ++ aci0Bytes 0xFFFFFFF0 0x20 0x40 0 0x40 0
    ++ acidBytes 0x240 0 0x240 0 0x240 0)

end NpdmUtils

namespace NpdmUtils

open Result

/-! ## Vocabulary of the specification

The descriptor kinds and payload fields as the specification words them, by
bit position, independently of the shifts and masks of the source. -/

/-- A word has kind `k` when its count of consecutive set bits starting at bit 0
is `k`: the `k` low bits are set and bit `k` is clear. -/
def HasKind (w k : Nat) : Prop :=
  w % 2 ^ (k + 1) = 2 ^ k - 1

instance (w k : Nat) : Decidable (HasKind w k) := by
  unfold HasKind
  infer_instance

/-- Kind 3, bits 4..9: highest thread priority. -/
def kfHighestPrio (w : Nat) : Nat := w / 2 ^ 4 % 2 ^ 6

/-- Kind 3, bits 10..15: lowest thread priority. -/
def kfLowestPrio (w : Nat) : Nat := w / 2 ^ 10 % 2 ^ 6

/-- Kind 3, bits 16..23: lowest CPU id. -/
def kfLowestCpu (w : Nat) : Nat := w / 2 ^ 16 % 2 ^ 8

/-- Kind 3, bits 24..31: highest CPU id. -/
def kfHighestCpu (w : Nat) : Nat := w / 2 ^ 24 % 2 ^ 8

/-- The kernel-flags range of the requested word `q` lies within that of the
restriction word `r`. -/
def KernelFlagsWithin (q r : Nat) : Prop :=
  kfHighestPrio q ≤ kfHighestPrio r ∧ kfLowestPrio q ≤ kfHighestPrio q
    ∧ kfLowestPrio r ≤ kfLowestPrio q ∧ kfLowestCpu r ≤ kfLowestCpu q
    ∧ kfLowestCpu q ≤ kfHighestCpu r ∧ kfHighestCpu q ≤ kfHighestCpu r

instance (q r : Nat) : Decidable (KernelFlagsWithin q r) := by
  unfold KernelFlagsWithin
  infer_instance

/-- The first word of kind `k` in a list. -/
def firstOfKind (k : Nat) (ws : List Nat) : Option Nat :=
  ws.find? (fun w => decide (HasKind w k))

/-- Kind 4, bits 5..28: the 24-bit syscall mask. -/
def syscallMask (w : Nat) : Nat := w / 2 ^ 5 % 2 ^ 24

/-- Kind 4, bits 29 and up: the syscall-group base. -/
def syscallBase (w : Nat) : Nat := w / 2 ^ 29

/-- The first kind-4 word of a list whose syscall-group base is `b`. -/
def firstSyscall (b : Nat) (ws : List Nat) : Option Nat :=
  ws.find? (fun w => decide (HasKind w 4) && decide (syscallBase w = b))

/-- A kind-4 word with the given base and mask. -/
def syscallWord (base mask : Nat) : Nat :=
  0xF + 2 ^ 5 * mask + 2 ^ 29 * base

/-- Kind 6, bits 7..30 of either word of the pair: the page address in the
first word, the size in the second. -/
def mapField (w : Nat) : Nat := w / 2 ^ 7 % 2 ^ 24

/-- Kind 6, bit 31 of either word of the pair: the flag of that word. -/
def mapFlag (w : Nat) : Nat := w / 2 ^ 31 % 2

/-- Kind 13, bits 14 and up: the whole payload above the tag. -/
def appTypePayload (w : Nat) : Nat := w / 2 ^ 14

/-- Kind 13, bits 14..16: the 3-bit application type. -/
def appTypeTag (w : Nat) : Nat := w / 2 ^ 14 % 2 ^ 3

/-- Kind 11, bits 12..21: the first IRQ number. -/
def irqField0 (w : Nat) : Nat := w / 2 ^ 12 % 2 ^ 10

/-- Kind 11, bits 22..31: the second IRQ number. -/
def irqField1 (w : Nat) : Nat := w / 2 ^ 22 % 2 ^ 10

/-- Some kind-11 word of `R` allows `irq`: one of its two IRQ fields is `irq`,
or both of its fields are `0x3FF`. -/
def IrqAllowed (R : List Nat) (irq : Nat) : Prop :=
  ∃ r ∈ R, HasKind r 11
    ∧ (irqField0 r = irq ∨ irqField1 r = irq ∨ (irqField0 r = 0x3FF ∧ irqField1 r = 0x3FF))

instance (R : List Nat) (irq : Nat) : Decidable (IrqAllowed R irq) := by
  unfold IrqAllowed
  infer_instance

/-! ## The rewrite of the application type -/

/-- `NpdmUtils::GetApplicationTypeRaw(caps, num_caps)`: the type bits of the
first word with tag `0x1FFF`, or 0. -/
def GetApplicationTypeRaw : List Nat → Nat
  | [] => 0
  | cap :: caps =>
    if cap &&& 0x3FFF = 0x1FFF then (cap >>> 14) &&& 7 else GetApplicationTypeRaw caps

/-- The loop "Fix application type" of `LoadNpdm` over one `caps` array: every
word with tag `0x1FFF` becomes
`(caps[i] & 0xFFFE3FFF) | (original_application_type << 14)`. -/
def fixApplicationType (original_application_type : Nat) : List Nat → List Nat
  | [] => []
  | cap :: caps =>
    (if cap &&& 0x3FFF = 0x1FFF then
        (cap &&& 0xFFFE3FFF) ||| (original_application_type <<< 14)
      else cap) :: fixApplicationType original_application_type caps

/-! ## The pair search with its array index -/

/-- The loop `for (i = 0; i < num_restrict_caps - 1; i++)` of case 6 written
with its index `i`, every array access `restrict_caps[..]` being a checked read.
The result is `none` when a read falls outside the array or when the loop has
not ended after `fuel` evaluations of its condition. The source reads index
`i + 1` twice (`restrict_caps[i+1]`, then `restrict_caps[++i]`): one checked
read stands for both. After `++i` a `continue` resumes at the old `i + 2`. -/
def mapRangeLoopIndexed (restrict_caps : List Nat) (desc next_desc base_addr base_end : Nat) :
    Nat → Nat → Option Result
  | 0, _ => none
  | fuel + 1, i =>
    if i < restrict_caps.length - 1 then
      match restrict_caps[i]? with
      | none => none
      | some r =>
        if r &&& 0x7F = 0x3F then
          let r_desc := r >>> 7
          match restrict_caps[i + 1]? with
          | none => none
          | some r_next =>
            if r_next &&& 0x7F ≠ 0x3F then some ResultLoaderInvalidCapabilityMapRange
            else
              let r_next_desc := r_next >>> 7
              let r_base_addr := r_desc &&& 0xFFFFFF
              let r_base_size := r_next_desc &&& 0xFFFFFF
              if r_base_size >>> 20 ≠ 0 then some ResultLoaderInvalidCapabilityMapRange
              else
                let r_base_end := (r_base_addr + r_base_size) % 2 ^ 32
                if ((r_desc >>> 24) &&& 1) ^^^ ((desc >>> 24) &&& 1) ≠ 0 then
                  mapRangeLoopIndexed restrict_caps desc next_desc base_addr base_end fuel (i + 2)
                else if ((r_next_desc >>> 24) &&& 1) ^^^ ((next_desc >>> 24) &&& 1) ≠ 0 then
                  mapRangeLoopIndexed restrict_caps desc next_desc base_addr base_end fuel (i + 2)
                else if base_addr < r_base_addr ∨ base_end > r_base_end then
                  mapRangeLoopIndexed restrict_caps desc next_desc base_addr base_end fuel (i + 2)
                else some ResultSuccess
        else mapRangeLoopIndexed restrict_caps desc next_desc base_addr base_end fuel (i + 1)
    else some ResultLoaderInvalidCapabilityMapRange

/-! ## The loader and its cache -/

/-- The files the loader opens: `<mountpoint>:/main.npdm` of an external content
source, `hbl:/main.npdm`, `code:/main.npdm`, and
`sdmc:/atmosphere/titles/<title_id>/exefs/main.npdm`. -/
inductive NpdmPath where
  | ecs (mountpoint : Nat)
  | hbl
  | exefs
  | sdcard (title_id : Nat)
  deriving DecidableEq

/-- The layout of `ldr_npdm.hpp` together with the offsets of the members that
`LoadNpdm` writes; like the rest of that header they are parameters. -/
structure LoaderLayout extends NpdmLayout where
  aci0_title_id : Nat
  acid_flags : Nat
  acid_title_id_range_min : Nat
  acid_title_id_range_max : Nat

/-- What the loader takes from its surroundings during one call: the content
management predicates (`ldr_content_management.hpp`), the files that `fopen`
finds, and the two firmware comparisons
`GetRuntimeFirmwareVersion() >= FirmwareVersion_500` and `_700`. -/
structure LoaderEnv where
  GetExternalContentSource : Nat → Option Nat
  ShouldOverrideContentsWithHBL : Nat → Bool
  ShouldOverrideContentsWithSD : Nat → Bool
  fopen : NpdmPath → Option NpdmFile
  fw_500 : Bool
  fw_700 : Bool

/-- The two static caches `g_npdm_cache` and `g_original_npdm_cache`. -/
structure LoaderState where
  g_npdm_cache : NpdmCache
  g_original_npdm_cache : NpdmCache
  deriving DecidableEq

/-- The state at start-up: both caches zeroed. -/
def initialState (L : NpdmLayout) : LoaderState :=
  { g_npdm_cache := zeroCache L, g_original_npdm_cache := zeroCache L }

/-- `NpdmUtils::OpenNpdm(title_id)`: the file it returns and, in order, the
paths it passed to `fopen`. -/
def OpenNpdm (env : LoaderEnv) (title_id : Nat) : Option NpdmFile × List NpdmPath :=
  match env.GetExternalContentSource title_id with
  | some ecs => (env.fopen (NpdmPath.ecs ecs), [NpdmPath.ecs ecs])
  | none =>
    if env.ShouldOverrideContentsWithHBL title_id then
      (env.fopen NpdmPath.hbl, [NpdmPath.hbl])
    else if env.ShouldOverrideContentsWithSD title_id then
      match env.fopen (NpdmPath.sdcard title_id) with
      | some f_out => (some f_out, [NpdmPath.sdcard title_id])
      | none => (env.fopen NpdmPath.exefs, [NpdmPath.sdcard title_id, NpdmPath.exefs])
    else (env.fopen NpdmPath.exefs, [NpdmPath.exefs])

/-- A store of one byte at `buffer + addr`; a store past the end of the list is
dropped. -/
def writeU8 (buffer : List Nat) (addr v : Nat) : List Nat :=
  buffer.set addr (v % 256)

/-- A store of a little-endian `u32` at `buffer + addr`. -/
def writeU32 (buffer : List Nat) (addr v : Nat) : List Nat :=
  writeU8 (writeU8 (writeU8 (writeU8 buffer addr v) (addr + 1) (v / 2 ^ 8))
    (addr + 2) (v / 2 ^ 16)) (addr + 3) (v / 2 ^ 24)

/-- A store of a little-endian `u64` at `buffer + addr`. -/
def writeU64 (buffer : List Nat) (addr v : Nat) : List Nat :=
  writeU32 (writeU32 buffer addr v) (addr + 4) (v / 2 ^ 32)

/-- The `n` words of the array `(u32 *)(buffer + ptr)`. -/
def readWords (buffer : List Nat) (ptr n : Nat) : List Nat :=
  (List.range n).map (fun i => readU32 buffer (ptr + 4 * i))

/-- The words `ws` stored into the array `(u32 *)(buffer + ptr)`. -/
def writeWords (buffer : List Nat) (ptr : Nat) : List Nat → List Nat
  | [] => buffer
  | w :: ws => writeWords (writeU32 buffer ptr w) (ptr + 4) ws

/-- One of the two loops "Fix application type" of `LoadNpdm`, on the array of
`size / sizeof(u32)` words at `caps`. The iterations touch disjoint words, so
the array is read as a whole, rewritten by `fixApplicationType` and stored
back. -/
def fixApplicationTypeAt (buffer : List Nat) (caps size original_application_type : Nat) :
    List Nat :=
  writeWords buffer caps
    (fixApplicationType original_application_type (readWords buffer caps (size / 4)))

/-- What a call of `LoadNpdm` or `LoadNpdmFromCache` leaves behind: the result
code, the record stored through `out` (if one was stored), the caches, and the
paths passed to `fopen` during the call. -/
structure LoadOutcome where
  rc : Result
  out : Option NpdmInfo
  state : LoaderState
  opened : List NpdmPath
  deriving DecidableEq

/-- `NpdmUtils::LoadNpdm(tid, out)`. After a successful parse the views
`info->acid`, `info->aci0`, `info->aci0_kac` and `info->acid_kac` are set
(`LoadNpdmInternal_complete`); `Option.getD` only unwraps them. -/
def LoadNpdm (L : LoaderLayout) (env : LoaderEnv) (tid : Nat) (s : LoaderState) :
    LoadOutcome :=
  let opening := OpenNpdm env tid
  let parsed := LoadNpdmInternal L.toNpdmLayout env.fw_700 opening.1 s.g_npdm_cache
  if parsed.1 ≠ ResultSuccess then
    { rc := parsed.1, out := none, state := { s with g_npdm_cache := parsed.2 },
      opened := opening.2 }
  else
    let info := parsed.2.info
    let acid := info.acid.getD 0
    let aci0 := info.aci0.getD 0
    let buffer := writeU64 parsed.2.buffer (acid + L.acid_title_id_range_min) tid
    let buffer := writeU64 buffer (acid + L.acid_title_id_range_max) tid
    let buffer := writeU64 buffer (aci0 + L.aci0_title_id) tid
    let done (buffer : List Nat) (original : NpdmCache) (opened : List NpdmPath) :
        LoadOutcome :=
      let info : NpdmInfo := { info with title_id := tid }
      { rc := ResultSuccess, out := some info,
        state := { g_npdm_cache := { info := info, buffer := buffer },
                   g_original_npdm_cache := original },
        opened := opened }
    if env.ShouldOverrideContentsWithHBL tid then
      let original := LoadNpdmInternal L.toNpdmLayout env.fw_700 (env.fopen NpdmPath.exefs)
        s.g_original_npdm_cache
      let opened := opening.2 ++ [NpdmPath.exefs]
      if original.1 = ResultSuccess then
        let original_info := original.2.info
        let o_buffer := original.2.buffer
        let buffer :=
          if env.fw_500 then
            writeU32 buffer (acid + L.acid_flags)
              ((readU32 buffer (acid + L.acid_flags) &&& 0xFFFFFFC3)
                ||| (readU32 o_buffer (original_info.acid.getD 0 + L.acid_flags) &&& 0x0000003C))
          else buffer
        let original_application_type :=
          GetApplicationTypeRaw
            (readWords o_buffer (original_info.aci0_kac.getD 0)
              (readU32 o_buffer (original_info.aci0.getD 0 + L.aci0_kac_size) / 4)) &&& 7
        let buffer := fixApplicationTypeAt buffer (info.aci0_kac.getD 0)
          (readU32 buffer (aci0 + L.aci0_kac_size)) original_application_type
        let buffer := fixApplicationTypeAt buffer (info.acid_kac.getD 0)
          (readU32 buffer (acid + L.acid_kac_size)) original_application_type
        done buffer original.2 opened
      else done buffer original.2 opened
    else done buffer s.g_original_npdm_cache opening.2

/-- `NpdmUtils::LoadNpdmFromCache(tid, out)`. -/
def LoadNpdmFromCache (L : LoaderLayout) (env : LoaderEnv) (tid : Nat) (s : LoaderState) :
    LoadOutcome :=
  if s.g_npdm_cache.info.title_id ≠ tid then LoadNpdm L env tid s
  else { rc := ResultSuccess, out := some s.g_npdm_cache.info, state := s, opened := [] }

/-- `NpdmUtils::InvalidateCache(tid)`. -/
def InvalidateCache (tid : Nat) (s : LoaderState) : LoaderState :=
  if s.g_npdm_cache.info.title_id = tid then
    { s with g_npdm_cache := { s.g_npdm_cache with info := {} } }
  else s

/-- A call made to the loader: a load, with the surroundings it runs in, or an
invalidation. -/
inductive LoaderCall where
  | load (env : LoaderEnv) (tid : Nat)
  | invalidate (tid : Nat)

/-- The caches after a sequence of calls. -/
def runCalls (L : LoaderLayout) : List LoaderCall → LoaderState → LoaderState
  | [], s => s
  | LoaderCall.load env tid :: calls, s => runCalls L calls (LoadNpdmFromCache L env tid s).state
  | LoaderCall.invalidate tid :: calls, s => runCalls L calls (InvalidateCache tid s)

/-- Every structural view of the record is set. -/
def NpdmInfo.complete (info : NpdmInfo) : Bool :=
  info.header.isSome && info.acid.isSome && info.aci0.isSome && info.acid_fac.isSome
    && info.acid_sac.isSome && info.acid_kac.isSome && info.aci0_fah.isSome
    && info.aci0_sac.isSome && info.aci0_kac.isSome

/-- The record `info` is a fully validated record for the identity `tid`: its
identity field is `tid`, every view is set, and the views are those left by a
run of `LoadNpdmInternal` that passed every check. -/
def FullyValidated (L : NpdmLayout) (tid : Nat) (info : NpdmInfo) : Prop :=
  info.title_id = tid ∧ info.complete = true
    ∧ ∃ (fw_700 : Bool) (f : NpdmFile) (cache : NpdmCache),
        (LoadNpdmInternal L fw_700 (some f) cache).1 = ResultSuccess
          ∧ (LoadNpdmInternal L fw_700 (some f) cache).2.info = { info with title_id := 0 }

/-- The concrete layout with the offsets of the members `LoadNpdm` writes. -/
def loaderLayout : LoaderLayout :=
  { npdmLayout with
    aci0_title_id := 0x10
    acid_flags := 0x20C
    acid_title_id_range_min := 0x210
    acid_title_id_range_max := 0x218 }

/-- A well-formed 0x300-byte file: ACI0 region at 0x80 (size 0x40), ACID region
at 0xC0 (size 0x240), all six sub-regions empty. -/
def soundFile : NpdmFile :=
  fileOf (headerBytes 0x80 0x40 0xC0 0x240
    ++ aci0Bytes 0x40 0 0x40 0 0x40 0
    ++ acidBytes 0x240 0 0x240 0 0x240 0)

/-- Surroundings without any file and without overrides. -/
def noFilesEnv : LoaderEnv :=
  { GetExternalContentSource := fun _ => none
    ShouldOverrideContentsWithHBL := fun _ => false
    ShouldOverrideContentsWithSD := fun _ => false
    fopen := fun _ => none
    fw_500 := true
    fw_700 := true }

/-- Surroundings in which every path holds the same file. -/
def oneFileEnv (f : NpdmFile) : LoaderEnv :=
  { GetExternalContentSource := fun _ => none
    ShouldOverrideContentsWithHBL := fun _ => false
    ShouldOverrideContentsWithSD := fun _ => false
    fopen := fun _ => some f
    fw_500 := true
    fw_700 := true }

/-- Surroundings in which every title is served by the alternate loader:
`hbl:/main.npdm` holds `primary`, `code:/main.npdm` holds `original`. -/
def hblEnv (primary original : NpdmFile) : LoaderEnv :=
  { GetExternalContentSource := fun _ => none
    ShouldOverrideContentsWithHBL := fun _ => true
    ShouldOverrideContentsWithSD := fun _ => false
    fopen := fun p => match p with
      | NpdmPath.hbl => some primary
      | NpdmPath.exefs => some original
      | _ => none
    fw_500 := true
    fw_700 := true }

/-- The cache invariant: a cached record with a non-zero identity field is a
fully validated record for that identity. -/
def CacheValid (L : NpdmLayout) (s : LoaderState) : Prop :=
  s.g_npdm_cache.info.title_id ≠ 0 →
    FullyValidated L s.g_npdm_cache.info.title_id s.g_npdm_cache.info

/-- The primary buffer after `LoadNpdm` has stamped the identity into the ACID
range bounds and the ACI0 identity field, before any adaptation. -/
def stampedBuffer (L : LoaderLayout) (tid : Nat) (parsed : NpdmCache) : List Nat :=
  writeU64
    (writeU64
      (writeU64 parsed.buffer (parsed.info.acid.getD 0 + L.acid_title_id_range_min) tid)
      (parsed.info.acid.getD 0 + L.acid_title_id_range_max) tid)
    (parsed.info.aci0.getD 0 + L.aci0_title_id) tid

/-- The word one iteration of the loop "Fix application type" of `LoadNpdm`
leaves in `caps[i]`. -/
def rewriteWord (original_application_type cap : Nat) : Nat :=
  if cap &&& 0x3FFF = 0x1FFF then
    (cap &&& 0xFFFE3FFF) ||| (original_application_type <<< 14)
  else cap

/-! ## The parser with its reads of the buffer recorded -/

/-- A read of one byte at `buffer + addr` that leaves a trace: the address is
appended to the log of reads and the value goes to the rest of the computation,
which has no other access to the buffer. -/
def tracedReadU8 {β : Type} (buffer : List Nat) (addr : Nat) (log : List Nat)
    (k : Nat → List Nat → β) : β :=
  k (readU8 buffer addr) (log ++ [addr])

/-- A read of a `u32` member at `buffer + addr` that leaves a trace. -/
def tracedReadU32 {β : Type} (buffer : List Nat) (addr : Nat) (log : List Nat)
    (k : Nat → List Nat → β) : β :=
  k (readU32 buffer addr) (log ++ [addr])

/-- One sub-region check with its reads, operand by operand and with the short
circuit of `||`: `size > parent_size`, then `offset < sizeof(parent header)`,
then the `u32` sum `offset + size > parent_size`; when all three fail the view
is set from one more read of `offset`. -/
def tracedSubRegion {β : Type} (buffer : List Nat)
    (size_addr offset_addr parent_size_addr sizeof_parent : Nat) (log : List Nat)
    (rejected : List Nat → β) (accepted : Nat → List Nat → β) : β :=
  tracedReadU32 buffer size_addr log fun size log =>
  tracedReadU32 buffer parent_size_addr log fun parent_size log =>
  if size > parent_size then rejected log
  else
    tracedReadU32 buffer offset_addr log fun offset log =>
    if offset < sizeof_parent then rejected log
    else
      tracedReadU32 buffer offset_addr log fun offset log =>
      tracedReadU32 buffer size_addr log fun size log =>
      tracedReadU32 buffer parent_size_addr log fun parent_size log =>
      if (offset + size) % 2 ^ 32 > parent_size then rejected log
      else
        tracedReadU32 buffer offset_addr log fun offset log =>
        accepted offset log

/-- `NpdmUtils::LoadNpdmInternal(f_npdm, cache)` once more, statement by
statement, with every evaluation of a member of the structures that overlay
`cache->buffer` made through `tracedReadU8` / `tracedReadU32`. It returns what
the call returns and leaves, and the addresses read from the buffer, in order
(left operand first, `||` short-circuited). -/
def LoadNpdmInternalTraced (L : NpdmLayout) (fw_700 : Bool) (f_npdm : Option NpdmFile)
    (cache : NpdmCache) : (Result × NpdmCache) × List Nat :=
  let cache : NpdmCache := { cache with info := {} }
  match f_npdm with
  | none => ((ResultFsPathNotFound, cache), [])
  | some f =>
    let npdm_size := f.contents.length
    if npdm_size > L.sizeof_buffer then ((ResultLoaderTooLargeMeta, cache), [])
    else
      let n_read := min f.readable npdm_size
      let buffer := f.contents.take n_read ++ cache.buffer.drop n_read
      let cache : NpdmCache := { cache with buffer := buffer }
      if n_read ≠ npdm_size then ((ResultLoaderTooLargeMeta, cache), [])
      else if npdm_size < L.sizeof_NpdmHeader then ((ResultLoaderInvalidMeta, cache), [])
      else
        let info : NpdmInfo := { cache.info with header := some 0 }
        let bad (info : NpdmInfo) (log : List Nat) : (Result × NpdmCache) × List Nat :=
          ((ResultLoaderInvalidMeta, { cache with info := info }), log)
        tracedReadU32 buffer L.header_magic [] fun magic log =>
        if magic ≠ L.MAGIC_META then bad info log
        else
          tracedReadU8 buffer L.header_mmu_flags log fun mmu_flags log =>
          if mmu_flags > (if fw_700 then 0x1F else 0xF) then bad info log
          else
            tracedReadU32 buffer L.header_aci0_offset log fun aci0_offset log =>
            if aci0_offset < L.sizeof_NpdmHeader then bad info log
            else
              tracedReadU32 buffer L.header_aci0_size log fun aci0_size log =>
              if aci0_size < L.sizeof_NpdmAci0 then bad info log
              else
                tracedReadU32 buffer L.header_aci0_offset log fun aci0_offset log =>
                tracedReadU32 buffer L.header_aci0_size log fun aci0_size log =>
                if (aci0_offset + aci0_size) % 2 ^ 32 > npdm_size then bad info log
                else
                  tracedReadU32 buffer L.header_aci0_offset log fun aci0 log =>
                  let info := { info with aci0 := some aci0 }
                  tracedReadU32 buffer (aci0 + L.aci0_magic) log fun aci0_magic log =>
                  if aci0_magic ≠ L.MAGIC_ACI0 then bad info log
                  else
                    tracedSubRegion buffer (aci0 + L.aci0_fah_size) (aci0 + L.aci0_fah_offset)
                      L.header_aci0_size L.sizeof_NpdmAci0 log (bad info) fun fah_offset log =>
                    let info := { info with aci0_fah := some (aci0 + fah_offset) }
                    tracedSubRegion buffer (aci0 + L.aci0_sac_size) (aci0 + L.aci0_sac_offset)
                      L.header_aci0_size L.sizeof_NpdmAci0 log (bad info) fun sac_offset log =>
                    let info := { info with aci0_sac := some (aci0 + sac_offset) }
                    tracedSubRegion buffer (aci0 + L.aci0_kac_size) (aci0 + L.aci0_kac_offset)
                      L.header_aci0_size L.sizeof_NpdmAci0 log (bad info) fun kac_offset log =>
                    let info := { info with aci0_kac := some (aci0 + kac_offset) }
                    tracedReadU32 buffer L.header_acid_offset log fun acid_offset log =>
                    if acid_offset < L.sizeof_NpdmHeader then bad info log
                    else
                      tracedReadU32 buffer L.header_acid_size log fun acid_size log =>
                      if acid_size < L.sizeof_NpdmAcid then bad info log
                      else
                        tracedReadU32 buffer L.header_acid_offset log fun acid_offset log =>
                        tracedReadU32 buffer L.header_acid_size log fun acid_size log =>
                        if (acid_offset + acid_size) % 2 ^ 32 > npdm_size then bad info log
                        else
                          tracedReadU32 buffer L.header_acid_offset log fun acid log =>
                          let info := { info with acid := some acid }
                          tracedReadU32 buffer (acid + L.acid_magic) log fun acid_magic log =>
                          if acid_magic ≠ L.MAGIC_ACID then bad info log
                          else
                            tracedSubRegion buffer (acid + L.acid_fac_size)
                              (acid + L.acid_fac_offset) L.header_acid_size L.sizeof_NpdmAcid log
                              (bad info) fun fac_offset log =>
                            let info := { info with acid_fac := some (acid + fac_offset) }
                            tracedSubRegion buffer (acid + L.acid_sac_size)
                              (acid + L.acid_sac_offset) L.header_acid_size L.sizeof_NpdmAcid log
                              (bad info) fun sac_offset log =>
                            let info := { info with acid_sac := some (acid + sac_offset) }
                            tracedSubRegion buffer (acid + L.acid_kac_size)
                              (acid + L.acid_kac_offset) L.header_acid_size L.sizeof_NpdmAcid log
                              (bad info) fun kac_offset log =>
                            let info := { info with acid_kac := some (acid + kac_offset) }
                            ((ResultSuccess, { cache with info := info }), log)

end NpdmUtils

/-! # Properties -/

namespace NpdmUtils

open Result

/-! ## C1 and C2: region bounds in the parser -/

/-- C1, evaluated on the code: `wrappedAci0File` is a well-formed 0x300-byte
file (every byte below 256, length within the buffer capacity and above the
header size, correct magic, zero flags) whose header gives the ACI0 region
offset 0x80 and size 0xFFFFFFC0. The exact sum of the two exceeds the file
length, the 32-bit sum is 0x40, and `LoadNpdmInternal` returns `ResultSuccess`
on either firmware era instead of `ResultLoaderInvalidMeta`. -/
theorem wrapped_aci0_region_accepted :
    (∀ b ∈ wrappedAci0File.contents, b < 256)
      ∧ wrappedAci0File.contents.length = 0x300
      ∧ wrappedAci0File.contents.length ≤ npdmLayout.sizeof_buffer
      ∧ npdmLayout.sizeof_NpdmHeader ≤ wrappedAci0File.contents.length
      ∧ readU32 wrappedAci0File.contents npdmLayout.header_aci0_offset = 0x80
      ∧ readU32 wrappedAci0File.contents npdmLayout.header_aci0_size = 0xFFFFFFC0
      ∧ 0x80 + 0xFFFFFFC0 > wrappedAci0File.contents.length
      ∧ (LoadNpdmInternal npdmLayout true (some wrappedAci0File) (zeroCache npdmLayout)).1
          = ResultSuccess
      ∧ (LoadNpdmInternal npdmLayout false (some wrappedAci0File) (zeroCache npdmLayout)).1
          = ResultSuccess := by
  decide!

/-- C2, evaluated on the code: `wrappedFahFile` is a well-formed 0x300-byte file
with sound ACI0 and ACID regions (ACI0 at offset 0x80, size 0x40) whose ACI0
file-access-header sub-region has offset 0xFFFFFFF0 and size 0x20. The exact sum
of the two exceeds the ACI0 region size, the 32-bit sum is 0x10, and
`LoadNpdmInternal` returns `ResultSuccess`, with the sub-region view placed
0xFFFFFFF0 bytes past the start of the ACI0 region. -/
theorem wrapped_sub_region_accepted :
    (∀ b ∈ wrappedFahFile.contents, b < 256)
      ∧ wrappedFahFile.contents.length = 0x300
      ∧ readU32 wrappedFahFile.contents npdmLayout.header_aci0_offset = 0x80
      ∧ readU32 wrappedFahFile.contents npdmLayout.header_aci0_size = 0x40
      ∧ readU32 wrappedFahFile.contents (0x80 + npdmLayout.aci0_fah_offset) = 0xFFFFFFF0
      ∧ readU32 wrappedFahFile.contents (0x80 + npdmLayout.aci0_fah_size) = 0x20
      ∧ 0xFFFFFFF0 + 0x20 > 0x40
      ∧ (LoadNpdmInternal npdmLayout true (some wrappedFahFile) (zeroCache npdmLayout)).1
          = ResultSuccess
      ∧ (LoadNpdmInternal npdmLayout true (some wrappedFahFile)
            (zeroCache npdmLayout)).2.info.aci0_fah = some (0x80 + 0xFFFFFFF0) := by
  decide!

/-! ## Bit-level facts -/

/-- On a word whose `k` low bits are set and whose bit `k` is clear, the
low-bits loop stops after `k` iterations, provided the fuel allows them. -/
theorem lowBitsLoop_of_mod (k : Nat) : ∀ (fuel desc low_bits : Nat), k ≤ fuel →
    desc % 2 ^ (k + 1) = 2 ^ k - 1 →
    lowBitsLoop fuel desc low_bits = (desc >>> k, low_bits + k) := by
  induction k with
  | zero =>
    intro fuel desc low_bits _ h
    cases fuel with
    | zero => simp [lowBitsLoop]
    | succ f =>
      have h2 : desc % 2 = 0 := by simpa using h
      simp [lowBitsLoop, Nat.and_one_is_mod, h2]
  | succ k ih =>
    intro fuel desc low_bits hk h
    cases fuel with
    | zero => omega
    | succ f =>
      have hpos : 0 < 2 ^ k := Nat.two_pow_pos k
      have e1 : 2 ^ (k + 1 + 1) = 2 * 2 ^ (k + 1) := by rw [pow_succ]; ring
      have e2 : 2 ^ (k + 1) = 2 * 2 ^ k := by rw [pow_succ]; ring
      have hodd : desc % 2 = 1 := by
        have h3 : desc % 2 ^ (k + 1 + 1) % 2 = desc % 2 :=
          Nat.mod_mod_of_dvd desc (Dvd.intro _ e1.symm)
        rw [h] at h3
        omega
      have hhalf : desc / 2 % 2 ^ (k + 1) = 2 ^ k - 1 := by
        have h3 : desc % (2 * 2 ^ (k + 1)) / 2 = desc / 2 % 2 ^ (k + 1) :=
          Nat.mod_mul_right_div_self desc 2 (2 ^ (k + 1))
        rw [← e1, h] at h3
        omega
      have hrec := ih f (desc >>> 1) (low_bits + 1) (by omega)
        (by rw [Nat.shiftRight_eq_div_pow]; simpa using hhalf)
      have hsh : desc >>> 1 >>> k = desc >>> (k + 1) := by
        rw [Nat.add_comm k 1, Nat.shiftRight_add]
      simp only [lowBitsLoop, Nat.and_one_is_mod, hodd]
      rw [hrec, hsh]
      simp [Nat.add_assoc, Nat.add_comm 1 k]

/-- Masking with `0xF` keeps the low bits. -/
theorem and_0xF (x : Nat) : x &&& 0xF = x % 16 := Nat.and_pow_two_sub_one_eq_mod x 4

/-- Masking with `0x1F` keeps the low bits. -/
theorem and_0x1F (x : Nat) : x &&& 0x1F = x % 32 := Nat.and_pow_two_sub_one_eq_mod x 5

/-- Masking with `0x3F` keeps the low bits. -/
theorem and_0x3F (x : Nat) : x &&& 0x3F = x % 64 := Nat.and_pow_two_sub_one_eq_mod x 6

/-- Masking with `0x7F` keeps the low bits. -/
theorem and_0x7F (x : Nat) : x &&& 0x7F = x % 128 := Nat.and_pow_two_sub_one_eq_mod x 7

/-- Masking with `0xFF` keeps the low bits. -/
theorem and_0xFF (x : Nat) : x &&& 0xFF = x % 256 := Nat.and_pow_two_sub_one_eq_mod x 8

/-- Masking with `0x3FF` keeps the low bits. -/
theorem and_0x3FF (x : Nat) : x &&& 0x3FF = x % 1024 := Nat.and_pow_two_sub_one_eq_mod x 10

/-- Masking with `0xFFF` keeps the low bits. -/
theorem and_0xFFF (x : Nat) : x &&& 0xFFF = x % 4096 := Nat.and_pow_two_sub_one_eq_mod x 12

/-- Masking with `0x3FFF` keeps the low bits. -/
theorem and_0x3FFF (x : Nat) : x &&& 0x3FFF = x % 16384 :=
  Nat.and_pow_two_sub_one_eq_mod x 14

/-- Masking with `0x7FFF` keeps the low bits. -/
theorem and_0x7FFF (x : Nat) : x &&& 0x7FFF = x % 32768 :=
  Nat.and_pow_two_sub_one_eq_mod x 15

/-- Masking with `0xFFFF` keeps the low bits. -/
theorem and_0xFFFF (x : Nat) : x &&& 0xFFFF = x % 65536 :=
  Nat.and_pow_two_sub_one_eq_mod x 16

/-- Masking with `0x1FFFF` keeps the low bits. -/
theorem and_0x1FFFF (x : Nat) : x &&& 0x1FFFF = x % 131072 :=
  Nat.and_pow_two_sub_one_eq_mod x 17

/-- Masking with `0xFFFFFF` keeps the low bits. -/
theorem and_0xFFFFFF (x : Nat) : x &&& 0xFFFFFF = x % 16777216 :=
  Nat.and_pow_two_sub_one_eq_mod x 24

/-- The descriptor decoding of a word of kind `k ≤ 32`: `low_bits = k`, and the
payload is the word shifted right by `k + 1`. -/
theorem lowBits_of_kind {w k : Nat} (hk : k ≤ 32) (h : HasKind w k) :
    (lowBitsLoop 32 w 0).2 = k ∧ (lowBitsLoop 32 w 0).1 >>> 1 = w / 2 ^ (k + 1) := by
  have := lowBitsLoop_of_mod k 32 w 0 hk h
  rw [this]
  refine ⟨by simp, ?_⟩
  simp [Nat.shiftRight_eq_div_pow, Nat.div_div_eq_div_mul, pow_succ]

/-- A one-word request that leaves nothing behind returns the result of its
single step. -/
theorem validate_single (R : List Nat) (q : Nat)
    (h : (ValidateCapabilityAgainstRestrictions R q []).2 = []) :
    ValidateCapabilities R [q] = some (ValidateCapabilityAgainstRestrictions R q []).1 := by
  unfold ValidateCapabilities
  simp only [List.length_singleton, validateLoop]
  rcases hstep : ValidateCapabilityAgainstRestrictions R q [] with ⟨rc, rem⟩
  rw [hstep] at h
  simp only at h
  subst h
  cases rc <;> simp [validateLoop]

/-- The step on a kind-3 word. -/
theorem step_kind3 (R : List Nat) {q : Nat} (rest : List Nat) (h : HasKind q 3) :
    ValidateCapabilityAgainstRestrictions R q rest = (kernelFlagsLoop (q / 2 ^ 4) R, rest) := by
  obtain ⟨h1, h2⟩ := lowBits_of_kind (by decide) h
  simp only [ValidateCapabilityAgainstRestrictions, h1, h2]

/-- The kernel-flags loop is decided by the first kind-3 restriction word. -/
theorem kernelFlagsLoop_first (q : Nat) (R : List Nat) :
    kernelFlagsLoop (q / 2 ^ 4) R =
      match firstOfKind 3 R with
      | none => ResultLoaderInvalidCapabilityKernelFlags
      | some r =>
        if KernelFlagsWithin q r then ResultSuccess
        else ResultLoaderInvalidCapabilityKernelFlags := by
  induction R with
  | nil => simp [kernelFlagsLoop, firstOfKind]
  | cons r rs ih =>
    unfold kernelFlagsLoop
    by_cases hr : r % 16 = 7
    · have hk : HasKind r 3 := by simpa [HasKind] using hr
      simp only [firstOfKind, List.find?, hk, decide_True, and_0xF, hr, if_true]
      simp only [KernelFlagsWithin, kfHighestPrio, kfLowestPrio, kfLowestCpu, kfHighestCpu,
        and_0x3F, and_0xFF, Nat.shiftRight_eq_div_pow, Nat.div_div_eq_div_mul]
      norm_num
      split_ifs <;> first | rfl | omega
    · have hk : ¬ HasKind r 3 := by simpa [HasKind] using hr
      simp only [firstOfKind, List.find?, hk, decide_False, and_0xF, hr, if_false]
      exact ih

/-- The step on a kind-4 word. -/
theorem step_kind4 (R : List Nat) {q : Nat} (rest : List Nat) (h : HasKind q 4) :
    ValidateCapabilityAgainstRestrictions R q rest = (syscallMaskLoop (q / 2 ^ 5) R, rest) := by
  obtain ⟨h1, h2⟩ := lowBits_of_kind (by decide) h
  simp only [ValidateCapabilityAgainstRestrictions, h1, h2]

/-- The syscall-mask loop is decided by the first kind-4 restriction word that
has the requested base. -/
theorem syscallMaskLoop_first (q : Nat) (R : List Nat) :
    syscallMaskLoop (q / 2 ^ 5) R =
      match firstSyscall (syscallBase q) R with
      | none => ResultLoaderInvalidCapabilitySyscallMask
      | some r =>
        if syscallMask q &&& syscallMask r = syscallMask q then ResultSuccess
        else ResultLoaderInvalidCapabilitySyscallMask := by
  induction R with
  | nil => simp [syscallMaskLoop, firstSyscall]
  | cons r rs ih =>
    unfold syscallMaskLoop
    have hb : r >>> 5 >>> 24 = syscallBase r := by
      simp [syscallBase, Nat.shiftRight_eq_div_pow, Nat.div_div_eq_div_mul]
    have hq : (q / 2 ^ 5) >>> 24 = syscallBase q := by
      simp [syscallBase, Nat.shiftRight_eq_div_pow, Nat.div_div_eq_div_mul]
    have hm : r >>> 5 &&& 0xFFFFFF = syscallMask r := by
      simp [syscallMask, and_0xFFFFFF, Nat.shiftRight_eq_div_pow]
    have hqm : (q / 2 ^ 5) &&& 0xFFFFFF = syscallMask q := by
      simp [syscallMask, and_0xFFFFFF]
    simp only [hb, hq, hm, hqm, and_0x1F]
    by_cases hr : r % 32 = 15
    · have hk : HasKind r 4 := by simpa [HasKind] using hr
      by_cases hbase : syscallBase r = syscallBase q
      · simp only [firstSyscall, List.find?, hk, hbase, decide_True, Bool.and_self, hr,
          if_true, ne_eq, not_true_eq_false, if_false, Nat.land_comm (syscallMask r)]
        split_ifs <;> rfl
      · have hbase2 : ¬ syscallBase q = syscallBase r := fun h => hbase h.symm
        simp only [firstSyscall, List.find?, hk, hbase, decide_True, decide_False,
          Bool.and_false, hr, if_true, ne_eq, hbase2, not_false_eq_true]
        exact ih
    · have hk : ¬ HasKind r 4 := by simpa [HasKind] using hr
      simp only [firstSyscall, List.find?, hk, decide_False, Bool.false_and, hr, if_false]
      exact ih

/-! ## C3: syscall masks -/

/-- C3, as stated, fails: the restriction list holds a kind-4 word with the
base of the request and a mask covering the requested mask `0b101` (its second
word, mask `0b111`), yet validation returns `InvalidCapabilitySyscallMask`,
because the first word with that base (mask `0b001`) decides. -/
theorem syscall_mask_some_match_not_enough :
    HasKind (syscallWord 2 5) 4
      ∧ (∃ r ∈ [syscallWord 2 1, syscallWord 2 7], HasKind r 4
          ∧ syscallBase r = syscallBase (syscallWord 2 5)
          ∧ syscallMask (syscallWord 2 5) &&& syscallMask r = syscallMask (syscallWord 2 5))
      ∧ ValidateCapabilities [syscallWord 2 1, syscallWord 2 7] [syscallWord 2 5]
          = some ResultLoaderInvalidCapabilitySyscallMask := by
  decide

/-- C3, amended: for every restriction list `R` and every requested kind-4 word
`q`, validating `[q]` against `R` succeeds if and only if the first kind-4 word
of `R` with the syscall-group base of `q` has a mask of which the mask of `q` is
a bitwise subset; when `R` has no kind-4 word with that base, or the first one
does not cover the mask, the result is `InvalidCapabilitySyscallMask`. -/
theorem syscall_mask_first_same_base_decides (R : List Nat) (q : Nat) (hq : HasKind q 4) :
    ValidateCapabilities R [q] =
      match firstSyscall (syscallBase q) R with
      | none => some ResultLoaderInvalidCapabilitySyscallMask
      | some r =>
        if syscallMask q &&& syscallMask r = syscallMask q then some ResultSuccess
        else some ResultLoaderInvalidCapabilitySyscallMask := by
  rw [validate_single R q (by rw [step_kind4 R [] hq]), step_kind4 R [] hq]
  simp only [syscallMaskLoop_first]
  cases firstSyscall (syscallBase q) R with
  | none => rfl
  | some r => simp only; split_ifs <;> rfl

/-- C3, amended, at a concrete input: two restriction words of base 2, the
first one covering the requested mask. -/
theorem syscall_mask_first_same_base_decides_witness :
    HasKind (syscallWord 2 5) 4
      ∧ ValidateCapabilities [syscallWord 3 1, syscallWord 2 7, syscallWord 2 1]
          [syscallWord 2 5] =
        match firstSyscall (syscallBase (syscallWord 2 5))
          [syscallWord 3 1, syscallWord 2 7, syscallWord 2 1] with
        | none => some ResultLoaderInvalidCapabilitySyscallMask
        | some r =>
          if syscallMask (syscallWord 2 5) &&& syscallMask r = syscallMask (syscallWord 2 5)
          then some ResultSuccess
          else some ResultLoaderInvalidCapabilitySyscallMask :=
  ⟨by decide, syscall_mask_first_same_base_decides _ _ (by decide)⟩

/-! ## C7: unknown kinds -/

/-- C7: for every restriction list and every non-empty requested list whose
first word is a 32-bit word of kind `k` with `k` not among 3, 4, 6, 7, 11, 13,
14, 15, 16 and 32, validation returns `UnknownCapability`. -/
theorem unknown_kind_is_rejected (R rest : List Nat) (q k : Nat) (hq : q < 2 ^ 32)
    (hk : HasKind q k) (hnot : k ∉ [3, 4, 6, 7, 11, 13, 14, 15, 16, 32]) :
    ValidateCapabilities R (q :: rest) = some ResultLoaderUnknownCapability := by
  have hle : k ≤ 32 := by
    by_contra hgt
    have h33 : 2 ^ 33 ≤ 2 ^ k := Nat.pow_le_pow_right (by decide) (by omega)
    have hmod : q % 2 ^ (k + 1) ≤ q := Nat.mod_le _ _
    unfold HasKind at hk
    have : (2:Nat) ^ 33 = 8589934592 := by norm_num
    have : (2:Nat) ^ 32 = 4294967296 := by norm_num
    omega
  obtain ⟨h1, _⟩ := lowBits_of_kind hle hk
  have hstep : ValidateCapabilityAgainstRestrictions R q rest
      = (ResultLoaderUnknownCapability, rest) := by
    simp only [ValidateCapabilityAgainstRestrictions, h1]
    simp only [List.mem_cons, List.mem_singleton, List.not_mem_nil, or_false, not_or] at hnot
    obtain ⟨n3, n4, n6, n7, n11, n13, n14, n15, n16, n32⟩ := hnot
    split <;> first | rfl | contradiction
  simp [ValidateCapabilities, validateLoop, hstep]

/-- C7 at a concrete input: a word with 20 trailing set bits. -/
theorem unknown_kind_is_rejected_witness :
    0xFFFFF < 2 ^ 32 ∧ HasKind 0xFFFFF 20 ∧ 20 ∉ [3, 4, 6, 7, 11, 13, 14, 15, 16, 32]
      ∧ ValidateCapabilities [0x7] [0xFFFFF, 0xF]
          = some ResultLoaderUnknownCapability :=
  ⟨by decide, by decide, by decide,
    unknown_kind_is_rejected [0x7] [0xF] 0xFFFFF 20 (by decide) (by decide) (by decide)⟩

/-! ## C8 and C9: kernel flags -/

/-- C8, as stated, fails: the kind-3 word `0x407` (highest priority 0, lowest
priority 1) is rejected against itself. -/
theorem kernel_flags_equal_range_rejected :
    HasKind 0x407 3
      ∧ ValidateCapabilities [0x407] [0x407]
          = some ResultLoaderInvalidCapabilityKernelFlags := by
  decide

/-- C8, amended: for every kind-3 word `w` whose lowest-priority field does not
exceed its highest-priority field and whose lowest-CPU field does not exceed its
highest-CPU field, validating `[w]` against `[w]` succeeds. -/
theorem kernel_flags_equal_range_accepted (w : Nat) (hw : HasKind w 3)
    (hprio : kfLowestPrio w ≤ kfHighestPrio w) (hcpu : kfLowestCpu w ≤ kfHighestCpu w) :
    ValidateCapabilities [w] [w] = some ResultSuccess := by
  rw [validate_single [w] w (by rw [step_kind3 [w] [] hw]), step_kind3 [w] [] hw]
  simp only [kernelFlagsLoop_first]
  have hwithin : KernelFlagsWithin w w := ⟨le_rfl, hprio, le_rfl, le_rfl, hcpu, le_rfl⟩
  simp [firstOfKind, List.find?, hw, hwithin]

/-- C8, amended, at a concrete input: priorities 10..63 on CPUs 0..3. -/
theorem kernel_flags_equal_range_accepted_witness :
    HasKind 0x30029F7 3 ∧ kfLowestPrio 0x30029F7 ≤ kfHighestPrio 0x30029F7
      ∧ kfLowestCpu 0x30029F7 ≤ kfHighestCpu 0x30029F7
      ∧ ValidateCapabilities [0x30029F7] [0x30029F7] = some ResultSuccess :=
  ⟨by decide, by decide, by decide,
    kernel_flags_equal_range_accepted 0x30029F7 (by decide) (by decide) (by decide)⟩

/-- C9: for every restriction list `R` and every requested kind-3 word `q`:
when `R` has no kind-3 word the result is `InvalidCapabilityKernelFlags`;
otherwise, with `r` the first kind-3 word of `R`, validation succeeds exactly
when `q.highestPrio ≤ r.highestPrio`, `q.lowestPrio ≤ q.highestPrio`,
`r.lowestPrio ≤ q.lowestPrio`, `r.lowestCpu ≤ q.lowestCpu ≤ r.highestCpu` and
`q.highestCpu ≤ r.highestCpu`, and returns `InvalidCapabilityKernelFlags` when
any of these fails. -/
theorem kernel_flags_first_restriction_decides (R : List Nat) (q : Nat) (hq : HasKind q 3) :
    ValidateCapabilities R [q] =
      match firstOfKind 3 R with
      | none => some ResultLoaderInvalidCapabilityKernelFlags
      | some r =>
        if KernelFlagsWithin q r then some ResultSuccess
        else some ResultLoaderInvalidCapabilityKernelFlags := by
  rw [validate_single R q (by rw [step_kind3 R [] hq]), step_kind3 R [] hq]
  simp only [kernelFlagsLoop_first]
  cases firstOfKind 3 R with
  | none => rfl
  | some r => simp only; split_ifs <;> rfl

/-- C9 at a concrete input: a request exceeding the highest CPU of the first
kind-3 restriction word, followed by a second kind-3 word that would allow it. -/
theorem kernel_flags_first_restriction_decides_witness :
    HasKind 0x40029F7 3
      ∧ ValidateCapabilities [0xF, 0x30029F7, 0x40029F7] [0x40029F7] =
        match firstOfKind 3 [0xF, 0x30029F7, 0x40029F7] with
        | none => some ResultLoaderInvalidCapabilityKernelFlags
        | some r =>
          if KernelFlagsWithin 0x40029F7 r then some ResultSuccess
          else some ResultLoaderInvalidCapabilityKernelFlags :=
  ⟨by decide, kernel_flags_first_restriction_decides _ _ (by decide)⟩

/-! ## C10: one restriction pair for a map range -/

/-- The step on a kind-6 word that is followed by another requested word. -/
theorem step_kind6 (R : List Nat) {q0 : Nat} (q1 : Nat) (rest : List Nat) (h : HasKind q0 6) :
    ValidateCapabilityAgainstRestrictions R q0 (q1 :: rest)
      = (mapRangeCheck (q0 / 2 ^ 7) q1 R, rest) := by
  obtain ⟨h1, h2⟩ := lowBits_of_kind (by decide) h
  simp only [ValidateCapabilityAgainstRestrictions, h1, h2]

/-- A two-word request whose first step consumes both words returns the result
of that step. -/
theorem validate_pair (R : List Nat) (q0 q1 : Nat)
    (h : (ValidateCapabilityAgainstRestrictions R q0 [q1]).2 = []) :
    ValidateCapabilities R [q0, q1]
      = some (ValidateCapabilityAgainstRestrictions R q0 [q1]).1 := by
  unfold ValidateCapabilities
  simp only [List.length_cons, List.length_nil, validateLoop]
  rcases hstep : ValidateCapabilityAgainstRestrictions R q0 [q1] with ⟨rc, rem⟩
  rw [hstep] at h
  simp only at h
  subst h
  cases rc <;> simp [validateLoop]

/-- The map-range check against a single, well-formed restriction pair. -/
theorem mapRangeCheck_pair (q0 q1 r0 r1 : Nat) (hr0 : HasKind r0 6) (hr1 : HasKind r1 6)
    (hrsize : mapField r1 < 2 ^ 20) :
    mapRangeCheck (q0 / 2 ^ 7) q1 [r0, r1] =
      if HasKind q1 6 ∧ mapField q1 < 2 ^ 20 ∧ mapFlag q0 = mapFlag r0
          ∧ mapFlag q1 = mapFlag r1 ∧ mapField r0 ≤ mapField q0
          ∧ mapField q0 + mapField q1 ≤ mapField r0 + mapField r1
      then ResultSuccess else ResultLoaderInvalidCapabilityMapRange := by
  have t0 : r0 % 128 = 63 := by simpa [HasKind] using hr0
  have t1 : r1 % 128 = 63 := by simpa [HasKind] using hr1
  have hs : r1 / 128 % 16777216 < 1048576 := by simpa [mapField] using hrsize
  simp only [mapRangeCheck, mapRangeLoop, mapField, mapFlag, HasKind, and_0x7F, and_0xFFFFFF,
    Nat.and_one_is_mod, Nat.shiftRight_eq_div_pow, Nat.div_div_eq_div_mul, List.length_cons,
    List.length_nil, ne_eq, Nat.xor_eq_zero, t0, t1]
  norm_num
  have l0 : r0 / 128 % 16777216 < 16777216 := Nat.mod_lt _ (by decide)
  have l1 : q0 / 128 % 16777216 < 16777216 := Nat.mod_lt _ (by decide)
  have l2 : q1 / 128 % 16777216 < 16777216 := Nat.mod_lt _ (by decide)
  have l3 : r1 / 128 % 16777216 < 16777216 := Nat.mod_lt _ (by decide)
  have e1 : (r0 / 128 % 16777216 + r1 / 128 % 16777216) % 4294967296
      = r0 / 128 % 16777216 + r1 / 128 % 16777216 := Nat.mod_eq_of_lt (by omega)
  have e2 : (q0 / 128 % 16777216 + q1 / 128 % 16777216) % 4294967296
      = q0 / 128 % 16777216 + q1 / 128 % 16777216 := Nat.mod_eq_of_lt (by omega)
  rw [e1, e2]
  split_ifs <;> first | rfl | omega

/-- C10: for a restriction list made of one kind-6 pair `[r0, r1]` (both words
carry the kind-6 tag, restriction size below `2 ^ 20`) and a requested list
`[q0, q1]` with `q0` of kind 6, validation succeeds if and only if `q1` carries
the kind-6 tag, the requested size is below `2 ^ 20`, the flag of `q0` equals the
flag of `r0`, the flag of `q1` equals the flag of `r1`, and the requested range
lies inside the restriction range; in every other case it returns
`InvalidCapabilityMapRange`. -/
theorem map_range_single_pair (r0 r1 q0 q1 : Nat) (hr0 : HasKind r0 6) (hr1 : HasKind r1 6)
    (hrsize : mapField r1 < 2 ^ 20) (hq0 : HasKind q0 6) :
    ValidateCapabilities [r0, r1] [q0, q1] =
      if HasKind q1 6 ∧ mapField q1 < 2 ^ 20 ∧ mapFlag q0 = mapFlag r0
          ∧ mapFlag q1 = mapFlag r1 ∧ mapField r0 ≤ mapField q0
          ∧ mapField q0 + mapField q1 ≤ mapField r0 + mapField r1
      then some ResultSuccess else some ResultLoaderInvalidCapabilityMapRange := by
  rw [validate_pair _ q0 q1 (by rw [step_kind6 _ q1 [] hq0]), step_kind6 _ q1 [] hq0]
  simp only [mapRangeCheck_pair q0 q1 r0 r1 hr0 hr1 hrsize]
  split_ifs <;> rfl

/-- C10 at a concrete input: restriction pages `0x100 .. 0x100 + 0x40`, request
pages `0x110 .. 0x110 + 0x10`, with both flags clear. -/
theorem map_range_single_pair_witness :
    HasKind 0x803F 6 ∧ HasKind 0x203F 6 ∧ mapField 0x203F < 2 ^ 20 ∧ HasKind 0x883F 6
      ∧ ValidateCapabilities [0x803F, 0x203F] [0x883F, 0x83F] =
        if HasKind 0x83F 6 ∧ mapField 0x83F < 2 ^ 20 ∧ mapFlag 0x883F = mapFlag 0x803F
            ∧ mapFlag 0x83F = mapFlag 0x203F ∧ mapField 0x803F ≤ mapField 0x883F
            ∧ mapField 0x883F + mapField 0x83F ≤ mapField 0x803F + mapField 0x203F
        then some ResultSuccess else some ResultLoaderInvalidCapabilityMapRange :=
  ⟨by decide, by decide, by decide, by decide,
    map_range_single_pair 0x803F 0x203F 0x883F 0x83F (by decide) (by decide) (by decide)
      (by decide)⟩

/-! ## The validation loop -/

/-- The number of low bits counted for a word of kind `k`, for any fuel. -/
theorem lowBitsLoop_count (k : Nat) : ∀ (fuel desc low_bits : Nat),
    desc % 2 ^ (k + 1) = 2 ^ k - 1 →
    (lowBitsLoop fuel desc low_bits).2 = low_bits + min k fuel := by
  induction k with
  | zero =>
    intro fuel desc low_bits h
    cases fuel with
    | zero => simp [lowBitsLoop]
    | succ f =>
      have h2 : desc % 2 = 0 := by simpa using h
      simp [lowBitsLoop, Nat.and_one_is_mod, h2]
  | succ k ih =>
    intro fuel desc low_bits h
    cases fuel with
    | zero => simp [lowBitsLoop]
    | succ f =>
      have hpos : 0 < 2 ^ k := Nat.two_pow_pos k
      have e1 : 2 ^ (k + 1 + 1) = 2 * 2 ^ (k + 1) := by rw [pow_succ]; ring
      have e2 : 2 ^ (k + 1) = 2 * 2 ^ k := by rw [pow_succ]; ring
      have hodd : desc % 2 = 1 := by
        have h3 : desc % 2 ^ (k + 1 + 1) % 2 = desc % 2 :=
          Nat.mod_mod_of_dvd desc (Dvd.intro _ e1.symm)
        rw [h] at h3
        omega
      have hhalf : desc / 2 % 2 ^ (k + 1) = 2 ^ k - 1 := by
        have h3 : desc % (2 * 2 ^ (k + 1)) / 2 = desc / 2 % 2 ^ (k + 1) :=
          Nat.mod_mul_right_div_self desc 2 (2 ^ (k + 1))
        rw [← e1, h] at h3
        omega
      have hrec := ih f (desc >>> 1) (low_bits + 1)
        (by rw [Nat.shiftRight_eq_div_pow]; simpa using hhalf)
      simp only [lowBitsLoop, Nat.and_one_is_mod, hodd]
      rw [if_pos (by decide), hrec]
      omega

/-- Every word has a kind. -/
theorem exists_kind (w : Nat) : ∃ k, HasKind w k := by
  induction w using Nat.strong_induction_on with
  | _ w ih =>
    by_cases hw : w % 2 = 0
    · exact ⟨0, by simpa [HasKind] using hw⟩
    · have hodd : w % 2 = 1 := by omega
      obtain ⟨k, hk⟩ := ih (w / 2) (by omega)
      refine ⟨k + 1, ?_⟩
      unfold HasKind at hk ⊢
      have hpos : 0 < 2 ^ k := Nat.two_pow_pos k
      have e1 : 2 ^ (k + 1 + 1) = 2 * 2 ^ (k + 1) := by rw [pow_succ]; ring
      have e2 : 2 ^ (k + 1) = 2 * 2 ^ k := by rw [pow_succ]; ring
      rw [e1, Nat.mod_mul, hodd, hk]
      omega

/-- The source reaches `case 6` exactly on the words of kind 6. -/
theorem lowBits_eq_six_iff (w : Nat) : (lowBitsLoop 32 w 0).2 = 6 ↔ HasKind w 6 := by
  obtain ⟨k, hk⟩ := exists_kind w
  have hc := lowBitsLoop_count k 32 w 0 hk
  constructor
  · intro h
    have : k = 6 := by omega
    exact this ▸ hk
  · intro h
    exact (lowBits_of_kind (by decide) h).1

/-- A step on a word that is not of kind 6 consumes that word only, and its
result does not depend on the words that follow. -/
theorem step_not_kind6 (R : List Nat) {q : Nat} (rest : List Nat) (h : ¬ HasKind q 6) :
    ValidateCapabilityAgainstRestrictions R q rest
      = ((ValidateCapabilityAgainstRestrictions R q []).1, rest) := by
  have h6 : (lowBitsLoop 32 q 0).2 ≠ 6 := fun e => h ((lowBits_eq_six_iff q).1 e)
  unfold ValidateCapabilityAgainstRestrictions
  simp only
  split <;> first | rfl | (split <;> rfl) | exact absurd rfl h6 | contradiction

/-- A step never gives back more requested words than it was handed. -/
theorem step_length (R : List Nat) (q : Nat) (rest : List Nat) :
    (ValidateCapabilityAgainstRestrictions R q rest).2.length ≤ rest.length := by
  unfold ValidateCapabilityAgainstRestrictions
  simp only
  split <;> first | exact le_rfl | (split <;> first | exact le_rfl | simp)

/-- A successful step is not affected by words appended to the request. -/
theorem step_append (R : List Nat) (q : Nat) (rest rem Q2 : List Nat)
    (h : ValidateCapabilityAgainstRestrictions R q rest = (ResultSuccess, rem)) :
    ValidateCapabilityAgainstRestrictions R q (rest ++ Q2) = (ResultSuccess, rem ++ Q2) := by
  by_cases h6 : HasKind q 6
  · cases rest with
    | nil =>
      obtain ⟨h1, h2⟩ := lowBits_of_kind (by decide) h6
      simp [ValidateCapabilityAgainstRestrictions, h1] at h
    | cons q1 rest2 =>
      rw [step_kind6 R q1 rest2 h6] at h
      rw [List.cons_append, step_kind6 R q1 (rest2 ++ Q2) h6]
      simp only [Prod.mk.injEq] at h ⊢
      exact ⟨h.1, by rw [h.2]⟩
  · rw [step_not_kind6 R rest h6] at h
    rw [step_not_kind6 R (rest ++ Q2) h6]
    simp only [Prod.mk.injEq] at h ⊢
    exact ⟨h.1, by rw [h.2]⟩

/-- Fuel beyond the number of requested words changes nothing. -/
theorem validateLoop_fuel (R : List Nat) : ∀ (n : Nat) (Q : List Nat) (f1 f2 : Nat),
    Q.length ≤ n → Q.length ≤ f1 → Q.length ≤ f2 →
    validateLoop R f1 Q = validateLoop R f2 Q := by
  intro n
  induction n with
  | zero =>
    intro Q f1 f2 hn _ _
    have : Q = [] := List.length_eq_zero.mp (by omega)
    subst this
    cases f1 <;> cases f2 <;> rfl
  | succ n ih =>
    intro Q f1 f2 hn h1 h2
    cases Q with
    | nil => cases f1 <;> cases f2 <;> rfl
    | cons q rest =>
      simp only [List.length_cons] at hn h1 h2
      cases f1 with
      | zero => omega
      | succ a =>
        cases f2 with
        | zero => omega
        | succ b =>
          have hl := step_length R q rest
          simp only [validateLoop]
          rcases hstep : ValidateCapabilityAgainstRestrictions R q rest with ⟨rc, rem⟩
          rw [hstep] at hl
          simp only at hl
          cases rc <;> simp only
          exact ih rem a b (by omega) (by omega) (by omega)

/-- An empty request is valid. -/
theorem validate_nil (R : List Nat) : ValidateCapabilities R [] = some ResultSuccess := rfl

/-- One iteration of the loop of `ValidateCapabilities`. -/
theorem validate_cons (R : List Nat) (q : Nat) (rest : List Nat) :
    ValidateCapabilities R (q :: rest) =
      match ValidateCapabilityAgainstRestrictions R q rest with
      | (ResultSuccess, remaining) => ValidateCapabilities R remaining
      | (rc, _) => some rc := by
  have hl := step_length R q rest
  unfold ValidateCapabilities
  simp only [List.length_cons, validateLoop]
  rcases hstep : ValidateCapabilityAgainstRestrictions R q rest with ⟨rc, rem⟩
  rw [hstep] at hl
  simp only at hl
  cases rc <;> simp only
  exact validateLoop_fuel R rest.length rem _ _ hl hl le_rfl

/-- The loop of `ValidateCapabilities` ends with a result code: the fuel
`num_aci0_caps` never runs out. -/
theorem ValidateCapabilities_total (R : List Nat) :
    ∀ (n : Nat) (Q : List Nat), Q.length ≤ n → ∃ rc, ValidateCapabilities R Q = some rc := by
  intro n
  induction n with
  | zero =>
    intro Q hn
    have : Q = [] := List.length_eq_zero.mp (by omega)
    exact ⟨ResultSuccess, by rw [this]; rfl⟩
  | succ n ih =>
    intro Q hn
    cases Q with
    | nil => exact ⟨ResultSuccess, rfl⟩
    | cons q rest =>
      have hl := step_length R q rest
      rw [validate_cons]
      rcases hstep : ValidateCapabilityAgainstRestrictions R q rest with ⟨rc, rem⟩
      rw [hstep] at hl
      simp only [List.length_cons] at hl hn
      cases rc <;> simp only <;> first | exact ih rem (by omega) | exact ⟨_, rfl⟩

/-- Appending to a valid request: what remains to validate is the appended part. -/
theorem validate_append (R : List Nat) : ∀ (n : Nat) (Q1 : List Nat), Q1.length ≤ n →
    ValidateCapabilities R Q1 = some ResultSuccess →
    ∀ Q2, ValidateCapabilities R (Q1 ++ Q2) = ValidateCapabilities R Q2 := by
  intro n
  induction n with
  | zero =>
    intro Q1 hn _ Q2
    have : Q1 = [] := List.length_eq_zero.mp (by omega)
    rw [this, List.nil_append]
  | succ n ih =>
    intro Q1 hn h Q2
    cases Q1 with
    | nil => rw [List.nil_append]
    | cons q rest =>
      have hl := step_length R q rest
      rw [validate_cons] at h
      rw [List.cons_append, validate_cons]
      rcases hstep : ValidateCapabilityAgainstRestrictions R q rest with ⟨rc, rem⟩
      rw [hstep] at h hl
      simp only [List.length_cons] at hl hn
      cases rc <;> simp only at h <;> try (exact absurd h (by simp))
      rw [step_append R q rest rem Q2 hstep]
      exact ih rem (by omega) h Q2

/-- Without kind-6 words a request is valid exactly when each of its words is. -/
theorem validate_no6_iff (R : List Nat) : ∀ Q : List Nat, (∀ q ∈ Q, ¬ HasKind q 6) →
    (ValidateCapabilities R Q = some ResultSuccess ↔
      ∀ q ∈ Q, (ValidateCapabilityAgainstRestrictions R q []).1 = ResultSuccess) := by
  intro Q
  induction Q with
  | nil => intro _; simp [validate_nil]
  | cons q rest ih =>
    intro h6
    have hq : ¬ HasKind q 6 := h6 q (List.mem_cons_self _ _)
    have hrest := ih (fun x hx => h6 x (List.mem_cons_of_mem _ hx))
    rw [validate_cons, step_not_kind6 R rest hq]
    simp only [List.mem_cons, forall_eq_or_imp]
    cases hrc : (ValidateCapabilityAgainstRestrictions R q []).1 <;> simp [hrest]

/-! ## C5 and C6: order and concatenation of requests -/

/-- C5: for every restriction list `R`, every requested list `Q` without a word
of kind 6 and every permutation `Q'` of `Q`, validating `Q'` succeeds if and
only if validating `Q` succeeds. -/
theorem validate_request_order_irrelevant (R Q Q' : List Nat)
    (hno6 : ∀ q ∈ Q, ¬ HasKind q 6) (hperm : Q'.Perm Q) :
    ValidateCapabilities R Q' = some ResultSuccess
      ↔ ValidateCapabilities R Q = some ResultSuccess := by
  have hno6' : ∀ q ∈ Q', ¬ HasKind q 6 := fun q hq => hno6 q (hperm.mem_iff.1 hq)
  rw [validate_no6_iff R Q hno6, validate_no6_iff R Q' hno6']
  exact ⟨fun h q hq => h q (hperm.mem_iff.2 hq), fun h q hq => h q (hperm.mem_iff.1 hq)⟩

/-- C5 at a concrete input: a kernel-flags word and a syscall-mask word, asked
for in either order. -/
theorem validate_request_order_irrelevant_witness :
    (∀ q ∈ [0x30029F7, syscallWord 2 5], ¬ HasKind q 6)
      ∧ [syscallWord 2 5, 0x30029F7].Perm [0x30029F7, syscallWord 2 5]
      ∧ (ValidateCapabilities [syscallWord 2 7, 0x30029F7] [syscallWord 2 5, 0x30029F7]
            = some ResultSuccess
          ↔ ValidateCapabilities [syscallWord 2 7, 0x30029F7] [0x30029F7, syscallWord 2 5]
            = some ResultSuccess) :=
  ⟨by decide, List.Perm.swap _ _ _,
    validate_request_order_irrelevant _ _ _ (by decide) (List.Perm.swap _ _ _)⟩

/-- C6: validating the empty request succeeds, and whenever validating `Q1`
succeeds, validating `Q1 ++ Q2` returns exactly the result of validating `Q2`. -/
theorem validate_append_of_success (R : List Nat) :
    ValidateCapabilities R [] = some ResultSuccess
      ∧ ∀ Q1 Q2 : List Nat, ValidateCapabilities R Q1 = some ResultSuccess →
          ValidateCapabilities R (Q1 ++ Q2) = ValidateCapabilities R Q2 :=
  ⟨validate_nil R, fun Q1 Q2 h => validate_append R Q1.length Q1 le_rfl h Q2⟩

/-- C6 at a concrete input: a valid map-range pair followed by a request that
fails. -/
theorem validate_append_of_success_witness :
    ValidateCapabilities [0x803F, 0x203F] [0x883F, 0x83F] = some ResultSuccess
      ∧ ValidateCapabilities [0x803F, 0x203F] ([0x883F, 0x83F] ++ [0xFFFFFFFF, 0x407])
          = ValidateCapabilities [0x803F, 0x203F] [0xFFFFFFFF, 0x407] :=
  ⟨by decide,
    (validate_append_of_success [0x803F, 0x203F]).2 [0x883F, 0x83F] [0xFFFFFFFF, 0x407]
      (by decide)⟩

/-! ## C4: order of the restriction words -/

/-- The kernel-flags loop sees only the first kind-3 restriction word. -/
theorem kernelFlagsLoop_firstOfKind (desc : Nat) (R : List Nat) :
    kernelFlagsLoop desc R = kernelFlagsLoop desc (firstOfKind 3 R).toList := by
  induction R with
  | nil => rfl
  | cons r rs ih =>
    by_cases hr : r % 16 = 7
    · have hk : HasKind r 3 := by simpa [HasKind] using hr
      simp [firstOfKind, List.find?, hk, kernelFlagsLoop, and_0xF, hr]
    · have hk : ¬ HasKind r 3 := by simpa [HasKind] using hr
      have e : firstOfKind 3 (r :: rs) = firstOfKind 3 rs := by
        simp [firstOfKind, List.find?, hk]
      rw [e, ← ih]
      simp [kernelFlagsLoop, and_0xF, hr]

/-- The syscall-mask loop sees only the first kind-4 restriction word with the
requested base. -/
theorem syscallMaskLoop_firstSyscall (desc : Nat) (R : List Nat) :
    syscallMaskLoop desc R = syscallMaskLoop desc (firstSyscall (desc >>> 24) R).toList := by
  induction R with
  | nil => rfl
  | cons r rs ih =>
    have hb : r >>> 5 >>> 24 = syscallBase r := by
      simp [syscallBase, Nat.shiftRight_eq_div_pow, Nat.div_div_eq_div_mul]
    by_cases hr : r % 32 = 15
    · have hk : HasKind r 4 := by simpa [HasKind] using hr
      by_cases hbase : syscallBase r = desc >>> 24
      · simp [firstSyscall, List.find?, hk, hbase, syscallMaskLoop, and_0x1F, hr, hb]
      · have e : firstSyscall (desc >>> 24) (r :: rs) = firstSyscall (desc >>> 24) rs := by
          simp [firstSyscall, List.find?, hbase]
        have hbase2 : ¬ desc >>> 24 = syscallBase r := fun h => hbase h.symm
        rw [e, ← ih]
        simp [syscallMaskLoop, and_0x1F, hr, hb, hbase2]
    · have hk : ¬ HasKind r 4 := by simpa [HasKind] using hr
      have e : firstSyscall (desc >>> 24) (r :: rs) = firstSyscall (desc >>> 24) rs := by
        simp [firstSyscall, List.find?, hk]
      rw [e, ← ih]
      simp [syscallMaskLoop, and_0x1F, hr]

/-- The handle-table loop sees only the first kind-15 restriction word. -/
theorem handleTableLoop_firstOfKind (desc : Nat) (R : List Nat) :
    handleTableLoop desc R = handleTableLoop desc (firstOfKind 15 R).toList := by
  induction R with
  | nil => rfl
  | cons r rs ih =>
    by_cases hr : r % 65536 = 32767
    · have hk : HasKind r 15 := by simpa [HasKind] using hr
      simp [firstOfKind, List.find?, hk, handleTableLoop, and_0xFFFF, hr]
    · have hk : ¬ HasKind r 15 := by simpa [HasKind] using hr
      have e : firstOfKind 15 (r :: rs) = firstOfKind 15 rs := by
        simp [firstOfKind, List.find?, hk]
      rw [e, ← ih]
      simp [handleTableLoop, and_0xFFFF, hr]

/-- The search of cases 13, 14 and 16 sees only the first restriction word of
the kind `k` that the pair `mask`, `tag` selects. -/
theorem firstPayload_firstOfKind (mask tag shift k : Nat)
    (hp : ∀ r, r &&& mask = tag ↔ HasKind r k) (R : List Nat) :
    firstPayload mask tag shift R = firstPayload mask tag shift (firstOfKind k R).toList := by
  induction R with
  | nil => rfl
  | cons r rs ih =>
    by_cases hk : HasKind r k
    · have hr : r &&& mask = tag := (hp r).2 hk
      simp [firstOfKind, List.find?, hk, firstPayload, hr]
    · have hr : ¬ r &&& mask = tag := fun h => hk ((hp r).1 h)
      have e : firstOfKind k (r :: rs) = firstOfKind k rs := by
        simp [firstOfKind, List.find?, hk]
      rw [e, ← ih]
      simp [firstPayload, hr]

/-- Without a kind-6 restriction word the pair search finds nothing. -/
theorem mapRangeLoop_no6 (desc next_desc base_addr base_end : Nat) :
    ∀ R : List Nat, (∀ r ∈ R, ¬ HasKind r 6) →
      mapRangeLoop desc next_desc base_addr base_end R
        = ResultLoaderInvalidCapabilityMapRange := by
  intro R
  induction R with
  | nil => intro _; rfl
  | cons r tl ih =>
    intro h
    cases tl with
    | nil => rfl
    | cons r_next rs =>
      have hk : ¬ HasKind r 6 := h r (List.mem_cons_self _ _)
      have hr : ¬ r % 128 = 63 := by simpa [HasKind] using hk
      have := ih (fun x hx => h x (List.mem_cons_of_mem _ hx))
      simp only [mapRangeLoop, and_0x7F, hr, if_false]
      exact this

/-- Without a kind-6 restriction word every map-range request is rejected. -/
theorem mapRangeCheck_no6 (desc next_cap : Nat) (R : List Nat) (h : ∀ r ∈ R, ¬ HasKind r 6) :
    mapRangeCheck desc next_cap R = ResultLoaderInvalidCapabilityMapRange := by
  unfold mapRangeCheck
  simp only [mapRangeLoop_no6 _ _ _ _ R h]
  split_ifs <;> rfl

/-- A Boolean search over a list does not depend on the order of the list. -/
theorem any_perm {p : Nat → Bool} {R R' : List Nat} (h : R'.Perm R) : R'.any p = R.any p := by
  rw [Bool.eq_iff_iff, List.any_eq_true, List.any_eq_true]
  exact ⟨fun ⟨x, hx, hpx⟩ => ⟨x, h.mem_iff.1 hx, hpx⟩, fun ⟨x, hx, hpx⟩ => ⟨x, h.mem_iff.2 hx, hpx⟩⟩

/-- The map-page loop is a search for a matching kind-7 restriction word. -/
theorem mapPageLoop_any (desc : Nat) (R : List Nat) :
    mapPageLoop desc R =
      if R.any (fun r => decide (r &&& 0xFF = 0x7F) && decide (r >>> 8 = desc)) = true
      then ResultSuccess else ResultLoaderInvalidCapabilityMapPage := by
  induction R with
  | nil => rfl
  | cons r rs ih =>
    by_cases hr : r &&& 0xFF = 0x7F
    · by_cases hd : r >>> 8 = desc
      · simp [mapPageLoop, hr, hd]
      · simp [mapPageLoop, hr, hd, ih]
    · simp [mapPageLoop, hr, ih]

/-- The inner IRQ loop is a search for a matching kind-11 restriction word. -/
theorem irqFoundLoop_any (irq : Nat) (R : List Nat) : ∀ found : Bool,
    irqFoundLoop irq found R =
      (found || R.any (fun r => decide (r &&& 0xFFF = 0x7FF)
        && ((irq == (r >>> 12) &&& 0x3FF || irq == (r >>> 12 >>> 10) &&& 0x3FF)
          || ((r >>> 12) &&& 0x3FF == 0x3FF && (r >>> 12 >>> 10) &&& 0x3FF == 0x3FF)))) := by
  induction R with
  | nil => intro found; simp [irqFoundLoop]
  | cons r rs ih =>
    intro found
    cases found with
    | true => simp [irqFoundLoop]
    | false =>
      by_cases hr : r &&& 0xFFF = 0x7FF
      · simp only [irqFoundLoop, hr, if_true, ih]
        simp [hr, Bool.or_assoc]
      · simp only [irqFoundLoop, hr, if_false, ih]
        simp [hr]

/-- The IRQ-pair check does not depend on the order of the restriction words. -/
theorem irqPairLoop_perm {R R' : List Nat} (h : R'.Perm R) : ∀ (n desc : Nat),
    irqPairLoop R' n desc = irqPairLoop R n desc := by
  intro n
  induction n with
  | zero => intro desc; rfl
  | succ n ih =>
    intro desc
    simp only [irqPairLoop, irqFoundLoop_any, any_perm h, ih]

/-- The step does not change when the restriction list is replaced by a
permutation that keeps the deciding first words, provided no restriction word
is of kind 6. -/
theorem step_restriction_order (R R' : List Nat) (hperm : R'.Perm R)
    (hno6 : ∀ r ∈ R, ¬ HasKind r 6)
    (hfirst : ∀ k ∈ [3, 13, 14, 15, 16], firstOfKind k R' = firstOfKind k R)
    (hsys : ∀ b, firstSyscall b R' = firstSyscall b R) (q : Nat) (rest : List Nat) :
    ValidateCapabilityAgainstRestrictions R' q rest
      = ValidateCapabilityAgainstRestrictions R q rest := by
  have hno6' : ∀ r ∈ R', ¬ HasKind r 6 := fun r hr => hno6 r (hperm.mem_iff.1 hr)
  have h3 : ∀ desc, kernelFlagsLoop desc R' = kernelFlagsLoop desc R := fun desc => by
    rw [kernelFlagsLoop_firstOfKind desc R', kernelFlagsLoop_firstOfKind desc R,
      hfirst 3 (by decide)]
  have h4 : ∀ desc, syscallMaskLoop desc R' = syscallMaskLoop desc R := fun desc => by
    rw [syscallMaskLoop_firstSyscall desc R', syscallMaskLoop_firstSyscall desc R, hsys]
  have h6 : ∀ desc next_cap, mapRangeCheck desc next_cap R' = mapRangeCheck desc next_cap R :=
    fun desc next_cap => by
      rw [mapRangeCheck_no6 desc next_cap R' hno6', mapRangeCheck_no6 desc next_cap R hno6]
  have h7 : ∀ desc, mapPageLoop desc R' = mapPageLoop desc R := fun desc => by
    rw [mapPageLoop_any, mapPageLoop_any, any_perm hperm]
  have h11 : ∀ n desc, irqPairLoop R' n desc = irqPairLoop R n desc := irqPairLoop_perm hperm
  have h13 : firstPayload 0x3FFF 0x1FFF 14 R' = firstPayload 0x3FFF 0x1FFF 14 R := by
    have hp : ∀ r, r &&& 0x3FFF = 0x1FFF ↔ HasKind r 13 := fun r => by
      simp [HasKind, and_0x3FFF]
    rw [firstPayload_firstOfKind _ _ _ 13 hp R', firstPayload_firstOfKind _ _ _ 13 hp R,
      hfirst 13 (by decide)]
  have h14 : firstPayload 0x7FFF 0x3FFF 15 R' = firstPayload 0x7FFF 0x3FFF 15 R := by
    have hp : ∀ r, r &&& 0x7FFF = 0x3FFF ↔ HasKind r 14 := fun r => by
      simp [HasKind, and_0x7FFF]
    rw [firstPayload_firstOfKind _ _ _ 14 hp R', firstPayload_firstOfKind _ _ _ 14 hp R,
      hfirst 14 (by decide)]
  have h15 : ∀ desc, handleTableLoop desc R' = handleTableLoop desc R := fun desc => by
    rw [handleTableLoop_firstOfKind desc R', handleTableLoop_firstOfKind desc R,
      hfirst 15 (by decide)]
  have h16 : firstPayload 0x1FFFF 0xFFFF 17 R' = firstPayload 0x1FFFF 0xFFFF 17 R := by
    have hp : ∀ r, r &&& 0x1FFFF = 0xFFFF ↔ HasKind r 16 := fun r => by
      simp [HasKind, and_0x1FFFF]
    rw [firstPayload_firstOfKind _ _ _ 16 hp R', firstPayload_firstOfKind _ _ _ 16 hp R,
      hfirst 16 (by decide)]
  simp only [ValidateCapabilityAgainstRestrictions, h3, h4, h6, h7, h11, h13, h14, h15, h16]

/-- C4, as stated, fails: without any kind-6 word, swapping two kind-4
restriction words of the same base changes the result of validating a request
that only the second of them covers. -/
theorem restriction_order_matters :
    (∀ r ∈ [syscallWord 2 1, syscallWord 2 7], ¬ HasKind r 6)
      ∧ [syscallWord 2 7, syscallWord 2 1].Perm [syscallWord 2 1, syscallWord 2 7]
      ∧ ValidateCapabilities [syscallWord 2 1, syscallWord 2 7] [syscallWord 2 5]
          = some ResultLoaderInvalidCapabilitySyscallMask
      ∧ ValidateCapabilities [syscallWord 2 7, syscallWord 2 1] [syscallWord 2 5]
          = some ResultSuccess :=
  ⟨by decide, List.Perm.swap _ _ _, by decide, by decide⟩

/-- C4, amended: for every requested list `Q`, every restriction list `R`
without kind-6 words and every permutation `R'` of `R` in which the first word
of each of the kinds 3, 13, 14, 15 and 16, and the first kind-4 word of each
syscall-group base, is the same word as in `R`, validating `Q` against `R'`
returns the same result as validating `Q` against `R`. -/
theorem validate_restriction_order (R R' Q : List Nat) (hperm : R'.Perm R)
    (hno6 : ∀ r ∈ R, ¬ HasKind r 6)
    (hfirst : ∀ k ∈ [3, 13, 14, 15, 16], firstOfKind k R' = firstOfKind k R)
    (hsys : ∀ b, firstSyscall b R' = firstSyscall b R) :
    ValidateCapabilities R' Q = ValidateCapabilities R Q := by
  have hstep := step_restriction_order R R' hperm hno6 hfirst hsys
  have hloop : ∀ (fuel : Nat) (Q : List Nat), validateLoop R' fuel Q = validateLoop R fuel Q := by
    intro fuel
    induction fuel with
    | zero => intro Q; cases Q <;> rfl
    | succ f ih =>
      intro Q
      cases Q with
      | nil => rfl
      | cons q rest =>
        simp only [validateLoop, hstep]
        rcases ValidateCapabilityAgainstRestrictions R q rest with ⟨rc, rem⟩
        cases rc <;> simp only [ih]
  exact hloop _ _

/-- C4, amended, at a concrete input: a kind-3 word, a kind-7 word and a kind-4
word, rotated. -/
theorem validate_restriction_order_witness :
    [0x107F, syscallWord 2 7, 0x30029F7].Perm [0x30029F7, 0x107F, syscallWord 2 7]
      ∧ (∀ r ∈ [0x30029F7, 0x107F, syscallWord 2 7], ¬ HasKind r 6)
      ∧ (∀ k ∈ [3, 13, 14, 15, 16],
          firstOfKind k [0x107F, syscallWord 2 7, 0x30029F7]
            = firstOfKind k [0x30029F7, 0x107F, syscallWord 2 7])
      ∧ (∀ b, firstSyscall b [0x107F, syscallWord 2 7, 0x30029F7]
            = firstSyscall b [0x30029F7, 0x107F, syscallWord 2 7])
      ∧ ValidateCapabilities [0x107F, syscallWord 2 7, 0x30029F7]
            [syscallWord 2 5, 0x107F, 0x30029F7]
          = ValidateCapabilities [0x30029F7, 0x107F, syscallWord 2 7]
            [syscallWord 2 5, 0x107F, 0x30029F7] :=
  have hp : [0x107F, syscallWord 2 7, 0x30029F7].Perm [0x30029F7, 0x107F, syscallWord 2 7] :=
    (List.perm_append_comm : ([0x107F, syscallWord 2 7] ++ [0x30029F7]).Perm _)
  have hs : ∀ b, firstSyscall b [0x107F, syscallWord 2 7, 0x30029F7]
      = firstSyscall b [0x30029F7, 0x107F, syscallWord 2 7] := fun b => by
    have h1 : ¬ HasKind 0x107F 4 := by decide
    have h2 : ¬ HasKind 0x30029F7 4 := by decide
    simp [firstSyscall, List.find?, h1, h2]
  ⟨hp, by decide, by decide, hs,
    validate_restriction_order _ _ _ hp (by decide) (by decide) hs⟩

/-! ## C11: application type -/

/-- The step on a kind-13 word. -/
theorem step_kind13 (R : List Nat) {q : Nat} (rest : List Nat) (h : HasKind q 13) :
    ValidateCapabilityAgainstRestrictions R q rest =
      (if q / 2 ^ 14 = firstPayload 0x3FFF 0x1FFF 14 R then ResultSuccess
        else ResultLoaderInvalidCapabilityApplicationType, rest) := by
  obtain ⟨h1, h2⟩ := lowBits_of_kind (by decide) h
  simp only [ValidateCapabilityAgainstRestrictions, h1, h2]
  split_ifs <;> rfl

/-- The value the kind-13 search leaves in `r_desc`: the payload of the first
kind-13 restriction word, or 0. -/
theorem firstPayload_kind13 (R : List Nat) :
    firstPayload 0x3FFF 0x1FFF 14 R =
      match firstOfKind 13 R with
      | none => 0
      | some r => appTypePayload r := by
  have hp : ∀ r, r &&& 0x3FFF = 0x1FFF ↔ HasKind r 13 := fun r => by
    simp [HasKind, and_0x3FFF]
  rw [firstPayload_firstOfKind _ _ _ 13 hp R]
  cases hf : firstOfKind 13 R with
  | none => rfl
  | some r =>
    have hr : HasKind r 13 := by
      have := List.find?_some hf
      simpa using this
    simp [firstPayload, (hp r).2 hr, appTypePayload, Nat.shiftRight_eq_div_pow]

/-- C11, as stated, fails: the requested kind-13 word `0x25FFF` and the only
restriction word `0x5FFF` carry the same 3-bit type (1), yet validation returns
`InvalidCapabilityApplicationType`, because bit 17 of the two words differs. -/
theorem application_type_tag_equality_not_enough :
    HasKind 0x25FFF 13 ∧ firstOfKind 13 [0x5FFF] = some 0x5FFF
      ∧ appTypeTag 0x25FFF = appTypeTag 0x5FFF
      ∧ ValidateCapabilities [0x5FFF] [0x25FFF]
          = some ResultLoaderInvalidCapabilityApplicationType := by
  decide

/-- C11, amended: for every restriction list `R` and every requested kind-13
word `q`, validating `[q]` against `R` succeeds if and only if the payload of
`q` above its tag (bits 14 and up: the 3-bit type and the bits above it) equals
that of the first kind-13 word of `R`, or equals 0 when `R` has no kind-13 word;
otherwise the result is `InvalidCapabilityApplicationType`. -/
theorem application_type_payload_equality (R : List Nat) (q : Nat) (hq : HasKind q 13) :
    ValidateCapabilities R [q] =
      if appTypePayload q =
          (match firstOfKind 13 R with
            | none => 0
            | some r => appTypePayload r)
      then some ResultSuccess
      else some ResultLoaderInvalidCapabilityApplicationType := by
  rw [validate_single R q (by rw [step_kind13 R [] hq]), step_kind13 R [] hq,
    firstPayload_kind13]
  simp only [appTypePayload]
  split_ifs <;> rfl

/-- C11, amended, at a concrete input: type 1 asked for, the first kind-13
restriction word has type 1 and a later one has type 2. -/
theorem application_type_payload_equality_witness :
    HasKind 0x5FFF 13
      ∧ ValidateCapabilities [0x7, 0x5FFF, 0x9FFF] [0x5FFF] =
        if appTypePayload 0x5FFF =
            (match firstOfKind 13 [0x7, 0x5FFF, 0x9FFF] with
              | none => 0
              | some r => appTypePayload r)
        then some ResultSuccess
        else some ResultLoaderInvalidCapabilityApplicationType :=
  ⟨by decide, application_type_payload_equality _ _ (by decide)⟩

/-! ## C12: IRQ pairs -/

/-- The step on a kind-11 word. -/
theorem step_kind11 (R : List Nat) {q : Nat} (rest : List Nat) (h : HasKind q 11) :
    ValidateCapabilityAgainstRestrictions R q rest = (irqPairLoop R 2 (q / 2 ^ 12), rest) := by
  obtain ⟨h1, h2⟩ := lowBits_of_kind (by decide) h
  simp only [ValidateCapabilityAgainstRestrictions, h1, h2]

/-- The inner IRQ loop finds exactly the IRQs that some kind-11 restriction word
allows. -/
theorem irqFoundLoop_iff (irq : Nat) (R : List Nat) :
    irqFoundLoop irq false R = true ↔ IrqAllowed R irq := by
  rw [irqFoundLoop_any]
  simp only [Bool.false_or, List.any_eq_true, IrqAllowed, HasKind, irqField0, irqField1,
    and_0xFFF, and_0x3FF, Nat.shiftRight_eq_div_pow, Nat.div_div_eq_div_mul]
  norm_num
  constructor
  · rintro ⟨r, hr, ht, hc⟩
    refine ⟨r, hr, ht, ?_⟩
    rcases hc with (h | h) | h
    · exact Or.inl h.symm
    · exact Or.inr (Or.inl h.symm)
    · exact Or.inr (Or.inr h)
  · rintro ⟨r, hr, ht, hc⟩
    refine ⟨r, hr, ht, ?_⟩
    rcases hc with h | h | h
    · exact Or.inl (Or.inl h.symm)
    · exact Or.inl (Or.inr h.symm)
    · exact Or.inr h

/-- The two iterations of the IRQ-pair loop on the payload of a kind-11 word. -/
theorem irqPairLoop_two (R : List Nat) (q : Nat) :
    irqPairLoop R 2 (q / 2 ^ 12) =
      if (irqField0 q ≠ 0x3FF → IrqAllowed R (irqField0 q))
          ∧ (irqField1 q ≠ 0x3FF → IrqAllowed R (irqField1 q))
      then ResultSuccess else ResultLoaderInvalidCapabilityInterruptPair := by
  have e0 : (q / 2 ^ 12) &&& 0x3FF = irqField0 q := by
    simp [irqField0, and_0x3FF]
  have e1 : ((q / 2 ^ 12) >>> 10) &&& 0x3FF = irqField1 q := by
    simp [irqField1, and_0x3FF, Nat.shiftRight_eq_div_pow, Nat.div_div_eq_div_mul]
  simp only [irqPairLoop, e0, e1, irqFoundLoop_iff]
  by_cases h0 : irqField0 q = 0x3FF <;> by_cases h1 : irqField1 q = 0x3FF <;>
    by_cases a0 : IrqAllowed R (irqField0 q) <;> by_cases a1 : IrqAllowed R (irqField1 q) <;>
    simp [h0, h1, a0, a1]

/-- C12: for every restriction list `R` and every requested kind-11 word `q`,
validating `[q]` against `R` succeeds if and only if each of the two 10-bit IRQ
fields of `q` that is not `0x3FF` is allowed by some kind-11 word of `R` (one of
whose two IRQ fields equals it, or whose two IRQ fields are both `0x3FF`);
otherwise the result is `InvalidCapabilityInterruptPair`. -/
theorem irq_pair_rule (R : List Nat) (q : Nat) (hq : HasKind q 11) :
    ValidateCapabilities R [q] =
      if ∀ irq ∈ [irqField0 q, irqField1 q], irq ≠ 0x3FF → IrqAllowed R irq
      then some ResultSuccess
      else some ResultLoaderInvalidCapabilityInterruptPair := by
  rw [validate_single R q (by rw [step_kind11 R [] hq]), step_kind11 R [] hq, irqPairLoop_two]
  simp only [List.mem_cons, List.mem_singleton, List.not_mem_nil, or_false, forall_eq_or_imp,
    forall_eq]
  split_ifs <;> rfl

/-- C12 at concrete inputs: a request with both fields `0x3FF` against the empty
restriction list, and a request for IRQs 5 and 9 against words holding 9 and 5. -/
theorem irq_pair_rule_witness :
    HasKind 0xFFFFF7FF 11 ∧ HasKind 0x24057FF 11
      ∧ ValidateCapabilities [] [0xFFFFF7FF] = some ResultSuccess
      ∧ ValidateCapabilities [0xFFC097FF, 0x14007FF] [0x24057FF] =
        if ∀ irq ∈ [irqField0 0x24057FF, irqField1 0x24057FF], irq ≠ 0x3FF →
            IrqAllowed [0xFFC097FF, 0x14007FF] irq
        then some ResultSuccess
        else some ResultLoaderInvalidCapabilityInterruptPair :=
  ⟨by decide, by decide,
    (irq_pair_rule [] 0xFFFFF7FF (by decide)).trans (by decide),
    irq_pair_rule [0xFFC097FF, 0x14007FF] 0x24057FF (by decide)⟩

/-! ## C13: a single syscall-mask restriction -/

/-- C13: for a restriction list made of a single kind-4 word `r` and a requested
list made of a single kind-4 word `q`, validation succeeds if and only if the
two words have the same base and the mask of `q` is a bitwise subset of the mask
of `r`; otherwise the result is `InvalidCapabilitySyscallMask`. -/
theorem syscall_mask_single_restriction (r q : Nat) (hr : HasKind r 4) (hq : HasKind q 4) :
    ValidateCapabilities [r] [q] =
      if syscallBase q = syscallBase r ∧ syscallMask q &&& syscallMask r = syscallMask q
      then some ResultSuccess
      else some ResultLoaderInvalidCapabilitySyscallMask := by
  rw [validate_single [r] q (by rw [step_kind4 [r] [] hq]), step_kind4 [r] [] hq,
    syscallMaskLoop_first]
  by_cases hb : syscallBase r = syscallBase q
  · simp only [firstSyscall, List.find?, hr, hb, decide_True, Bool.and_self, true_and]
    split_ifs <;> rfl
  · have hb2 : ¬ syscallBase q = syscallBase r := fun h => hb h.symm
    simp [firstSyscall, List.find?, hb, hb2]

/-- C13 at the inputs of the specification: the request `{base=2, mask=0b101}`
succeeds against `{base=2, mask=0b111}` and fails with
`InvalidCapabilitySyscallMask` against `{base=3, mask=0b111}`. -/
theorem syscall_mask_single_restriction_witness :
    HasKind (syscallWord 2 7) 4 ∧ HasKind (syscallWord 3 7) 4 ∧ HasKind (syscallWord 2 5) 4
      ∧ ValidateCapabilities [syscallWord 2 7] [syscallWord 2 5] = some ResultSuccess
      ∧ ValidateCapabilities [syscallWord 3 7] [syscallWord 2 5]
          = some ResultLoaderInvalidCapabilitySyscallMask :=
  ⟨by decide, by decide, by decide,
    (syscall_mask_single_restriction (syscallWord 2 7) (syscallWord 2 5) (by decide)
      (by decide)).trans (by decide),
    (syscall_mask_single_restriction (syscallWord 3 7) (syscallWord 2 5) (by decide)
      (by decide)).trans (by decide)⟩

/-! ## C18: the rewrite of the application type -/

/-- A number below `2 ^ n` has no bit set at position `n` or above. -/
theorem testBit_high_false {x i n : Nat} (hx : x < 2 ^ n) (hi : n ≤ i) : x.testBit i = false :=
  Nat.testBit_lt_two_pow (lt_of_lt_of_le hx (Nat.pow_le_pow_right (by decide) hi))

/-- The bits of the mask `0xFFFE3FFF`: all of bits 0..31 except 14, 15 and 16. -/
theorem testBit_appTypeMask (i : Nat) :
    Nat.testBit 0xFFFE3FFF i = (decide (i < 14) || (decide (17 ≤ i) && decide (i < 32))) := by
  by_cases h : i < 32
  · interval_cases i <;> decide
  · have : Nat.testBit 0xFFFE3FFF i = false := testBit_high_false (n := 32) (by decide) (by omega)
    rw [this]
    have h1 : ¬ i < 14 := by omega
    simp [h, h1]

/-- The rewritten word keeps bits 0..13. -/
theorem fixWord_low (w t : Nat) :
    ((w &&& 0xFFFE3FFF) ||| (t <<< 14)) % 2 ^ 14 = w % 2 ^ 14 := by
  apply Nat.eq_of_testBit_eq
  intro i
  simp only [Nat.testBit_mod_two_pow, Nat.testBit_or, Nat.testBit_and, Nat.testBit_shiftLeft,
    testBit_appTypeMask]
  by_cases h : i < 14
  · have h2 : ¬ 14 ≤ i := by omega
    simp [h, h2]
  · simp [h]

/-- On a 32-bit word the low-bits loop has ended after 32 iterations: more fuel
changes nothing. -/
theorem lowBitsLoop_32 (w : Nat) (hw : w < 2 ^ 32) (fuel : Nat) (hf : 32 ≤ fuel) :
    lowBitsLoop fuel w 0 = lowBitsLoop 32 w 0 := by
  obtain ⟨k, hk⟩ := exists_kind w
  have hle : k ≤ 32 := by
    by_contra hgt
    have h33 : 2 ^ 33 ≤ 2 ^ k := Nat.pow_le_pow_right (by decide) (by omega)
    have hmod : w % 2 ^ (k + 1) ≤ w := Nat.mod_le _ _
    unfold HasKind at hk
    have : (2:Nat) ^ 33 = 8589934592 := by norm_num
    have : (2:Nat) ^ 32 = 4294967296 := by norm_num
    omega
  rw [lowBitsLoop_of_mod k fuel w 0 (by omega) hk, lowBitsLoop_of_mod k 32 w 0 hle hk]

/-- A step consumes the word it is called on and at most one more. -/
theorem step_consumes (R : List Nat) (q : Nat) (rest : List Nat) :
    (ValidateCapabilityAgainstRestrictions R q rest).2 = rest
      ∨ ∃ q1, rest = q1 :: (ValidateCapabilityAgainstRestrictions R q rest).2 := by
  by_cases h6 : HasKind q 6
  · cases rest with
    | nil =>
      left
      obtain ⟨h1, _⟩ := lowBits_of_kind (by decide) h6
      simp [ValidateCapabilityAgainstRestrictions, h1]
    | cons q1 rest2 =>
      right
      exact ⟨q1, by rw [step_kind6 R q1 rest2 h6]⟩
  · left
    rw [step_not_kind6 R rest h6]

/-- A kind-6 word that is the last requested word is rejected on the spot. -/
theorem step_kind6_last (R : List Nat) {q : Nat} (h : HasKind q 6) :
    ValidateCapabilityAgainstRestrictions R q []
      = (ResultLoaderInvalidCapabilityMapRange, []) := by
  obtain ⟨h1, _⟩ := lowBits_of_kind (by decide) h
  simp [ValidateCapabilityAgainstRestrictions, h1]

/-- The indexed pair search started at index `i` never reads outside the array
and returns what the list search returns on the words from index `i` on. -/
theorem mapRangeLoopIndexed_eq (R : List Nat) (desc next_desc base_addr base_end : Nat) :
    ∀ (fuel i : Nat), 0 < fuel → R.length ≤ fuel + i →
      mapRangeLoopIndexed R desc next_desc base_addr base_end fuel i
        = some (mapRangeLoop desc next_desc base_addr base_end (R.drop i)) := by
  intro fuel
  induction fuel with
  | zero => intro i h; omega
  | succ f ih =>
    intro i _ hlen
    have hdl : (R.drop i).length = R.length - i := List.length_drop i R
    rcases hdrop : R.drop i with _ | ⟨r, _ | ⟨r_next, rs⟩⟩
    · rw [hdrop] at hdl
      have hc : ¬ i < R.length - 1 := by simp at hdl; omega
      simp [mapRangeLoopIndexed, hc, mapRangeLoop]
    · rw [hdrop] at hdl
      have hc : ¬ i < R.length - 1 := by simp at hdl; omega
      simp [mapRangeLoopIndexed, hc, mapRangeLoop]
    · rw [hdrop] at hdl
      have hc : i < R.length - 1 := by simp at hdl; omega
      have hlen2 : i + 2 ≤ R.length := by omega
      have g0 : R[i]? = some r := by
        have := List.getElem?_drop R i 0
        rw [hdrop] at this
        simpa using this.symm
      have g1 : R[i + 1]? = some r_next := by
        have := List.getElem?_drop R i 1
        rw [hdrop] at this
        simpa using this.symm
      have d1 : R.drop (i + 1) = r_next :: rs := by
        have := List.drop_drop 1 i R
        rw [hdrop] at this
        simpa [Nat.add_comm] using this.symm
      have d2 : R.drop (i + 2) = rs := by
        have := List.drop_drop 2 i R
        rw [hdrop] at this
        simpa [Nat.add_comm] using this.symm
      have ih1 := ih (i + 1) (by omega) (by omega)
      have ih2 := ih (i + 2) (by omega) (by omega)
      rw [d1] at ih1
      rw [d2] at ih2
      simp only [mapRangeLoopIndexed, hc, if_true, g0, g1, mapRangeLoop, ih1, ih2]
      split_ifs <;> rfl

/-- C20: for every restriction list `R` and requested list `Q`, validation
ends with a result code; on a 32-bit word the count of trailing set bits is
complete after 32 iterations; every step consumes the word it is called on and
at most one more, never more than remain; a kind-6 word that is the last
requested word returns `InvalidCapabilityMapRange` with nothing left to read;
and the kind-6 pair search, run with checked array reads on a restriction list
of at least two words, never reads outside it (index `i + 1` is read only below
the restriction count) and agrees with the search of the model. -/
theorem validate_terminates_in_bounds (R Q : List Nat) :
    (∃ rc, ValidateCapabilities R Q = some rc)
      ∧ (∀ w fuel, w < 2 ^ 32 → 32 ≤ fuel → lowBitsLoop fuel w 0 = lowBitsLoop 32 w 0)
      ∧ (∀ q rest, (ValidateCapabilityAgainstRestrictions R q rest).2 = rest
          ∨ ∃ q1, rest = q1 :: (ValidateCapabilityAgainstRestrictions R q rest).2)
      ∧ (∀ q, HasKind q 6 →
          ValidateCapabilityAgainstRestrictions R q []
            = (ResultLoaderInvalidCapabilityMapRange, []))
      ∧ (∀ desc next_desc base_addr base_end, 2 ≤ R.length →
          mapRangeLoopIndexed R desc next_desc base_addr base_end R.length 0
            = some (mapRangeLoop desc next_desc base_addr base_end R)) :=
  ⟨ValidateCapabilities_total R Q.length Q le_rfl,
    fun w fuel hw hf => lowBitsLoop_32 w hw fuel hf,
    fun q rest => step_consumes R q rest,
    fun _ h => step_kind6_last R h,
    fun desc next_desc base_addr base_end hlen => by
      have := mapRangeLoopIndexed_eq R desc next_desc base_addr base_end R.length 0
        (by omega) (by omega)
      simpa using this⟩

/-- C20 at a concrete input: a request ending in a lone kind-6 word, against a
restriction list holding one pair. -/
theorem validate_terminates_in_bounds_witness :
    ValidateCapabilities [0x803F, 0x203F] [0x30029F7, 0x883F]
        = some ResultLoaderInvalidCapabilityKernelFlags
      ∧ lowBitsLoop 40 0xFFFFFFFF 0 = lowBitsLoop 32 0xFFFFFFFF 0
      ∧ ValidateCapabilityAgainstRestrictions [0x803F, 0x203F] 0x883F []
          = (ResultLoaderInvalidCapabilityMapRange, [])
      ∧ mapRangeLoopIndexed [0x803F, 0x203F] 0x111 0x10 0x111 0x121 2 0
          = some (mapRangeLoop 0x111 0x10 0x111 0x121 [0x803F, 0x203F]) :=
  ⟨by decide,
    (validate_terminates_in_bounds [0x803F, 0x203F] [0x30029F7, 0x883F]).2.1 0xFFFFFFFF 40
      (by decide) (by decide),
    (validate_terminates_in_bounds [0x803F, 0x203F] [0x30029F7, 0x883F]).2.2.2.1 0x883F
      (by decide),
    (validate_terminates_in_bounds [0x803F, 0x203F] [0x30029F7, 0x883F]).2.2.2.2
      0x111 0x10 0x111 0x121 (by decide)⟩

/-! ## The loader: facts about the parser it relies on -/

/-- A property that holds of both branches holds of the conditional. -/
theorem ite_both {α : Type} (P : α → Prop) (c : Prop) [Decidable c] (a b : α)
    (ha : P a) (hb : P b) : P (if c then a else b) := by
  split_ifs
  · exact ha
  · exact hb

/-- `LoadNpdmInternal` never sets the identity field: it leaves it zero. -/
theorem LoadNpdmInternal_title_id (L : NpdmLayout) (fw_700 : Bool) (f : Option NpdmFile)
    (cache : NpdmCache) : (LoadNpdmInternal L fw_700 f cache).2.info.title_id = 0 := by
  unfold LoadNpdmInternal
  cases f with
  | none => rfl
  | some f =>
    dsimp only
    repeat (refine ite_both (fun r : Result × NpdmCache => r.2.info.title_id = 0) _ _ _ rfl ?_)
    rfl

/-- After a successful `LoadNpdmInternal` every view of the record is set. -/
theorem LoadNpdmInternal_complete (L : NpdmLayout) (fw_700 : Bool) (f : Option NpdmFile)
    (cache : NpdmCache) (h : (LoadNpdmInternal L fw_700 f cache).1 = ResultSuccess) :
    (LoadNpdmInternal L fw_700 f cache).2.info.complete = true := by
  revert h
  unfold LoadNpdmInternal
  cases f with
  | none => intro h; cases h
  | some f =>
    dsimp only
    repeat (refine ite_both
              (fun r : Result × NpdmCache => r.1 = ResultSuccess → r.2.info.complete = true)
              _ _ _ (fun h => by cases h) ?_)
    exact fun _ => rfl

/-- A successful `LoadNpdmInternal` had a file to read. -/
theorem LoadNpdmInternal_present (L : NpdmLayout) (fw_700 : Bool) (f : Option NpdmFile)
    (cache : NpdmCache) (h : (LoadNpdmInternal L fw_700 f cache).1 = ResultSuccess) :
    ∃ file, f = some file := by
  cases f with
  | none => simp [LoadNpdmInternal] at h
  | some file => exact ⟨file, rfl⟩

/-! ## The loader -/

/-- `OpenNpdm` always passes at least one path to `fopen`. -/
theorem OpenNpdm_opened (env : LoaderEnv) (tid : Nat) : (OpenNpdm env tid).2 ≠ [] := by
  unfold OpenNpdm
  split
  · simp
  · split_ifs
    · simp
    · split <;> simp
    · simp

/-- `LoadNpdm` when the primary parse fails: the error is returned, nothing is
stored through `out`, and the primary cache is what the parser left. -/
theorem LoadNpdm_of_parse_failure (L : LoaderLayout) (env : LoaderEnv) (tid : Nat)
    (s : LoaderState)
    (h : (LoadNpdmInternal L.toNpdmLayout env.fw_700 (OpenNpdm env tid).1 s.g_npdm_cache).1
      ≠ ResultSuccess) :
    LoadNpdm L env tid s =
      { rc := (LoadNpdmInternal L.toNpdmLayout env.fw_700 (OpenNpdm env tid).1
          s.g_npdm_cache).1,
        out := none,
        state := { s with g_npdm_cache :=
          (LoadNpdmInternal L.toNpdmLayout env.fw_700 (OpenNpdm env tid).1 s.g_npdm_cache).2 },
        opened := (OpenNpdm env tid).2 } := by
  unfold LoadNpdm
  simp only [h, ne_eq, not_false_eq_true, if_true]

/-- `LoadNpdm` when the primary parse succeeds: the call succeeds, and the record
stored through `out` and kept in the cache is the parsed one with the identity
field set. -/
theorem LoadNpdm_of_parse_success (L : LoaderLayout) (env : LoaderEnv) (tid : Nat)
    (s : LoaderState)
    (h : (LoadNpdmInternal L.toNpdmLayout env.fw_700 (OpenNpdm env tid).1 s.g_npdm_cache).1
      = ResultSuccess) :
    (LoadNpdm L env tid s).rc = ResultSuccess
      ∧ (LoadNpdm L env tid s).out = some
          { (LoadNpdmInternal L.toNpdmLayout env.fw_700 (OpenNpdm env tid).1
              s.g_npdm_cache).2.info with title_id := tid }
      ∧ (LoadNpdm L env tid s).state.g_npdm_cache.info =
          { (LoadNpdmInternal L.toNpdmLayout env.fw_700 (OpenNpdm env tid).1
              s.g_npdm_cache).2.info with title_id := tid } := by
  unfold LoadNpdm
  simp only [h, ne_eq, not_true_eq_false, if_false]
  split_ifs <;> exact ⟨rfl, rfl, rfl⟩

/-- `LoadNpdm` always passes at least one path to `fopen`. -/
theorem LoadNpdm_opened (L : LoaderLayout) (env : LoaderEnv) (tid : Nat) (s : LoaderState) :
    (LoadNpdm L env tid s).opened ≠ [] := by
  have ho := OpenNpdm_opened env tid
  unfold LoadNpdm
  dsimp only
  split_ifs <;> simp [ho]

/-- The record a successful `LoadNpdm` leaves in the cache is fully validated. -/
theorem LoadNpdm_validated (L : LoaderLayout) (env : LoaderEnv) (tid : Nat) (s : LoaderState)
    (h : (LoadNpdmInternal L.toNpdmLayout env.fw_700 (OpenNpdm env tid).1 s.g_npdm_cache).1
      = ResultSuccess) :
    FullyValidated L.toNpdmLayout tid
      { (LoadNpdmInternal L.toNpdmLayout env.fw_700 (OpenNpdm env tid).1
          s.g_npdm_cache).2.info with title_id := tid } := by
  obtain ⟨file, hfile⟩ := LoadNpdmInternal_present _ _ _ _ h
  have hc := LoadNpdmInternal_complete _ _ _ _ h
  have ht := LoadNpdmInternal_title_id L.toNpdmLayout env.fw_700 (OpenNpdm env tid).1
    s.g_npdm_cache
  rw [hfile] at h hc ht ⊢
  refine ⟨rfl, ?_, env.fw_700, file, s.g_npdm_cache, h, ?_⟩
  · simpa [NpdmInfo.complete] using hc
  · generalize (LoadNpdmInternal L.toNpdmLayout env.fw_700 (some file) s.g_npdm_cache).2.info
      = info at ht
    cases info
    simp only at ht
    simp [ht]

/-- The cache invariant holds at start-up. -/
theorem CacheValid_initial (L : NpdmLayout) : CacheValid L (initialState L) :=
  fun h => absurd rfl h

/-- `InvalidateCache` keeps the cache invariant. -/
theorem CacheValid_invalidate (L : NpdmLayout) (tid : Nat) (s : LoaderState)
    (h : CacheValid L s) : CacheValid L (InvalidateCache tid s) := by
  unfold InvalidateCache
  split_ifs
  · exact fun hne => absurd rfl hne
  · exact h

/-- `LoadNpdmFromCache` keeps the cache invariant. -/
theorem CacheValid_load (L : LoaderLayout) (env : LoaderEnv) (tid : Nat) (s : LoaderState)
    (h : CacheValid L.toNpdmLayout s) :
    CacheValid L.toNpdmLayout (LoadNpdmFromCache L env tid s).state := by
  unfold LoadNpdmFromCache
  split_ifs
  · by_cases hp : (LoadNpdmInternal L.toNpdmLayout env.fw_700 (OpenNpdm env tid).1
        s.g_npdm_cache).1 = ResultSuccess
    · obtain ⟨_, _, hinfo⟩ := LoadNpdm_of_parse_success L env tid s hp
      intro _
      rw [hinfo]
      exact LoadNpdm_validated L env tid s hp
    · rw [LoadNpdm_of_parse_failure L env tid s hp]
      intro hne
      exact absurd (LoadNpdmInternal_title_id _ _ _ _) hne
  · exact h

/-- The cache invariant holds after every sequence of calls. -/
theorem CacheValid_runCalls (L : LoaderLayout) : ∀ (calls : List LoaderCall) (s : LoaderState),
    CacheValid L.toNpdmLayout s → CacheValid L.toNpdmLayout (runCalls L calls s) := by
  intro calls
  induction calls with
  | nil => intro s h; exact h
  | cons c cs ih =>
    intro s h
    cases c with
    | load env tid => exact ih _ (CacheValid_load L env tid s h)
    | invalidate tid => exact ih _ (CacheValid_invalidate _ tid s h)

/-! ## C14: what a successful load returns -/

/-- C14, as stated, fails at identity 0. At start-up `LoadNpdmFromCache(0)`
succeeds without opening any file and returns the empty record; after a failed
load (a file with a sound magic whose ACI0 offset lies inside the header) the
same call succeeds with a record that has only its header view set. -/
theorem load_of_identity_zero_returns_unvalidated :
    (LoadNpdmFromCache loaderLayout noFilesEnv 0 (initialState npdmLayout)).rc = ResultSuccess
      ∧ (LoadNpdmFromCache loaderLayout noFilesEnv 0 (initialState npdmLayout)).out = some {}
      ∧ (LoadNpdmFromCache loaderLayout noFilesEnv 0 (initialState npdmLayout)).opened = []
      ∧ (LoadNpdmFromCache loaderLayout (oneFileEnv (fileOf (headerBytes 0 0 0 0))) 5
          (initialState npdmLayout)).rc = ResultLoaderInvalidMeta
      ∧ (LoadNpdmFromCache loaderLayout noFilesEnv 0
          (LoadNpdmFromCache loaderLayout (oneFileEnv (fileOf (headerBytes 0 0 0 0))) 5
            (initialState npdmLayout)).state).rc = ResultSuccess
      ∧ (LoadNpdmFromCache loaderLayout noFilesEnv 0
          (LoadNpdmFromCache loaderLayout (oneFileEnv (fileOf (headerBytes 0 0 0 0))) 5
            (initialState npdmLayout)).state).out = some { header := some 0 } := by
  decide!

/-- C14, amended: in every cache state reached from the zeroed caches by a
sequence of load and invalidate calls, and for every identity other than 0,
whenever `LoadNpdmFromCache` returns success the record it stores through `out`
is fully validated: its identity field is the requested identity, every
structural view is set, and the views are those of a parse that passed every
check. -/
theorem successful_load_returns_validated (L : LoaderLayout) (calls : List LoaderCall)
    (env : LoaderEnv) (tid : Nat) (htid : tid ≠ 0)
    (hrc : (LoadNpdmFromCache L env tid
      (runCalls L calls (initialState L.toNpdmLayout))).rc = ResultSuccess) :
    ∃ info,
      (LoadNpdmFromCache L env tid (runCalls L calls (initialState L.toNpdmLayout))).out
          = some info
        ∧ FullyValidated L.toNpdmLayout tid info := by
  have hinv := CacheValid_runCalls L calls _ (CacheValid_initial L.toNpdmLayout)
  generalize runCalls L calls (initialState L.toNpdmLayout) = s at hrc hinv
  unfold LoadNpdmFromCache at hrc ⊢
  by_cases hhit : s.g_npdm_cache.info.title_id = tid
  · simp only [hhit, ne_eq, not_true_eq_false, if_false]
    refine ⟨_, rfl, ?_⟩
    have := hinv (by rw [hhit]; exact htid)
    rwa [hhit] at this
  · simp only [hhit, ne_eq, not_false_eq_true, if_true] at hrc ⊢
    by_cases hp : (LoadNpdmInternal L.toNpdmLayout env.fw_700 (OpenNpdm env tid).1
        s.g_npdm_cache).1 = ResultSuccess
    · obtain ⟨_, hout, _⟩ := LoadNpdm_of_parse_success L env tid s hp
      exact ⟨_, hout, LoadNpdm_validated L env tid s hp⟩
    · rw [LoadNpdm_of_parse_failure L env tid s hp] at hrc
      exact absurd hrc hp

/-- C14, amended, at a concrete input: identity 5 is loaded from a sound file,
another identity is invalidated, and identity 5 is loaded again with no file in
reach. -/
theorem successful_load_returns_validated_witness :
    (5 : Nat) ≠ 0
      ∧ (LoadNpdmFromCache loaderLayout noFilesEnv 5
          (runCalls loaderLayout
            [LoaderCall.load (oneFileEnv soundFile) 5, LoaderCall.invalidate 7]
            (initialState loaderLayout.toNpdmLayout))).rc = ResultSuccess
      ∧ ∃ info,
          (LoadNpdmFromCache loaderLayout noFilesEnv 5
            (runCalls loaderLayout
              [LoaderCall.load (oneFileEnv soundFile) 5, LoaderCall.invalidate 7]
              (initialState loaderLayout.toNpdmLayout))).out = some info
            ∧ FullyValidated loaderLayout.toNpdmLayout 5 info :=
  ⟨by decide, by decide!,
    successful_load_returns_validated loaderLayout
      [LoaderCall.load (oneFileEnv soundFile) 5, LoaderCall.invalidate 7] noFilesEnv 5
      (by decide) (by decide!)⟩

/-! ## C15: load after invalidate -/

/-- C15, as stated, fails at identity 0: after `InvalidateCache(0)` the call
`LoadNpdmFromCache(0)` answers from the cache (no file is opened, the empty
record is returned), although `code:/main.npdm` holds a sound file that
`LoadNpdm` would have parsed. -/
theorem load_of_identity_zero_after_invalidate_hits :
    (LoadNpdmFromCache loaderLayout (oneFileEnv soundFile) 0
        (InvalidateCache 0 (initialState npdmLayout))).opened = []
      ∧ (LoadNpdmFromCache loaderLayout (oneFileEnv soundFile) 0
          (InvalidateCache 0 (initialState npdmLayout))).out = some {}
      ∧ (LoadNpdm loaderLayout (oneFileEnv soundFile) 0
          (InvalidateCache 0 (initialState npdmLayout))).opened = [NpdmPath.exefs]
      ∧ (LoadNpdm loaderLayout (oneFileEnv soundFile) 0
          (InvalidateCache 0 (initialState npdmLayout))).out ≠ some {} := by
  decide!

/-- C15, amended: for every identity `A` other than 0 and every cache state,
after `InvalidateCache(A)` the next `LoadNpdmFromCache(A)` does not answer from
the cache: it takes the `LoadNpdm` path, which opens at least one file. -/
theorem load_after_invalidate_misses (L : LoaderLayout) (env : LoaderEnv) (A : Nat)
    (s : LoaderState) (hA : A ≠ 0) :
    LoadNpdmFromCache L env A (InvalidateCache A s) = LoadNpdm L env A (InvalidateCache A s)
      ∧ (LoadNpdmFromCache L env A (InvalidateCache A s)).opened ≠ [] := by
  have hmiss : (InvalidateCache A s).g_npdm_cache.info.title_id ≠ A := by
    unfold InvalidateCache
    split_ifs with h
    · exact fun e => hA e.symm
    · exact h
  have heq : LoadNpdmFromCache L env A (InvalidateCache A s)
      = LoadNpdm L env A (InvalidateCache A s) := by
    unfold LoadNpdmFromCache
    rw [if_pos hmiss]
  exact ⟨heq, heq ▸ LoadNpdm_opened L env A _⟩

/-- C15, amended, at a concrete input: identity 5 is cached, invalidated and
loaded again. -/
theorem load_after_invalidate_misses_witness :
    (5 : Nat) ≠ 0
      ∧ (LoadNpdmFromCache loaderLayout (oneFileEnv soundFile) 5
          (initialState npdmLayout)).state.g_npdm_cache.info.title_id = 5
      ∧ LoadNpdmFromCache loaderLayout (oneFileEnv soundFile) 5
          (InvalidateCache 5
            (LoadNpdmFromCache loaderLayout (oneFileEnv soundFile) 5
              (initialState npdmLayout)).state)
        = LoadNpdm loaderLayout (oneFileEnv soundFile) 5
          (InvalidateCache 5
            (LoadNpdmFromCache loaderLayout (oneFileEnv soundFile) 5
              (initialState npdmLayout)).state)
      ∧ (LoadNpdmFromCache loaderLayout (oneFileEnv soundFile) 5
          (InvalidateCache 5
            (LoadNpdmFromCache loaderLayout (oneFileEnv soundFile) 5
              (initialState npdmLayout)).state)).opened ≠ [] :=
  ⟨by decide, by decide!,
    load_after_invalidate_misses loaderLayout (oneFileEnv soundFile) 5
      (LoadNpdmFromCache loaderLayout (oneFileEnv soundFile) 5 (initialState npdmLayout)).state
      (by decide)⟩

/-! ## C16: load after a successful load -/

/-- C16: for every identity `A` and every cache state, if `LoadNpdmFromCache(A)`
succeeds then an immediately following `LoadNpdmFromCache(A)`, in whatever
surroundings, also succeeds, stores the same record through `out`, opens no
file, and leaves the caches as they were. -/
theorem repeated_load_answers_from_cache (L : LoaderLayout) (env env2 : LoaderEnv) (A : Nat)
    (s : LoaderState) (h : (LoadNpdmFromCache L env A s).rc = ResultSuccess) :
    LoadNpdmFromCache L env2 A (LoadNpdmFromCache L env A s).state =
      { rc := ResultSuccess, out := (LoadNpdmFromCache L env A s).out,
        state := (LoadNpdmFromCache L env A s).state, opened := [] } := by
  by_cases hhit : s.g_npdm_cache.info.title_id = A
  · have e1 : LoadNpdmFromCache L env A s =
        { rc := ResultSuccess, out := some s.g_npdm_cache.info, state := s, opened := [] } := by
      unfold LoadNpdmFromCache
      simp only [hhit, ne_eq, not_true_eq_false, if_false]
    rw [e1]
    unfold LoadNpdmFromCache
    simp only [hhit, ne_eq, not_true_eq_false, if_false]
  · have e1 : LoadNpdmFromCache L env A s = LoadNpdm L env A s := by
      unfold LoadNpdmFromCache
      simp only [hhit, ne_eq, not_false_eq_true, if_true]
    rw [e1] at h ⊢
    by_cases hp : (LoadNpdmInternal L.toNpdmLayout env.fw_700 (OpenNpdm env A).1
        s.g_npdm_cache).1 = ResultSuccess
    · obtain ⟨_, hout, hinfo⟩ := LoadNpdm_of_parse_success L env A s hp
      have ht : (LoadNpdm L env A s).state.g_npdm_cache.info.title_id = A := by rw [hinfo]
      unfold LoadNpdmFromCache
      simp only [ht, ne_eq, not_true_eq_false, if_false]
      rw [hout, hinfo]
    · rw [LoadNpdm_of_parse_failure L env A s hp] at h
      exact absurd h hp

/-- C16 at a concrete input: identity 5 is loaded from a sound file, then loaded
again with no file in reach. -/
theorem repeated_load_answers_from_cache_witness :
    (LoadNpdmFromCache loaderLayout (oneFileEnv soundFile) 5 (initialState npdmLayout)).rc
        = ResultSuccess
      ∧ (LoadNpdmFromCache loaderLayout (oneFileEnv soundFile) 5
          (initialState npdmLayout)).opened = [NpdmPath.exefs]
      ∧ LoadNpdmFromCache loaderLayout noFilesEnv 5
          (LoadNpdmFromCache loaderLayout (oneFileEnv soundFile) 5
            (initialState npdmLayout)).state =
        { rc := ResultSuccess,
          out := (LoadNpdmFromCache loaderLayout (oneFileEnv soundFile) 5
            (initialState npdmLayout)).out,
          state := (LoadNpdmFromCache loaderLayout (oneFileEnv soundFile) 5
            (initialState npdmLayout)).state,
          opened := [] } :=
  ⟨by decide!, by decide!,
    repeated_load_answers_from_cache loaderLayout (oneFileEnv soundFile) noFilesEnv 5
      (initialState npdmLayout) (by decide!)⟩

/-! ## C17: a failed parse of the original metadata -/

/-- C17, as stated, fails: identity 5 is served by the alternate loader, the
primary file parses, `code:/main.npdm` is opened and holds three bytes, which
`LoadNpdmInternal` rejects with `ResultLoaderInvalidMeta`; `LoadNpdm` returns
`ResultSuccess`, not that error. -/
theorem original_parse_error_not_returned :
    (hblEnv soundFile (fileOf [1, 2, 3])).ShouldOverrideContentsWithHBL 5 = true
      ∧ (LoadNpdmInternal npdmLayout true (some soundFile) (zeroCache npdmLayout)).1
          = ResultSuccess
      ∧ (hblEnv soundFile (fileOf [1, 2, 3])).fopen NpdmPath.exefs = some (fileOf [1, 2, 3])
      ∧ (LoadNpdmInternal npdmLayout true (some (fileOf [1, 2, 3]))
          (zeroCache npdmLayout)).1 = ResultLoaderInvalidMeta
      ∧ (LoadNpdm loaderLayout (hblEnv soundFile (fileOf [1, 2, 3])) 5
          (initialState npdmLayout)).rc = ResultSuccess
      ∧ (LoadNpdm loaderLayout (hblEnv soundFile (fileOf [1, 2, 3])) 5
          (initialState npdmLayout)).opened = [NpdmPath.hbl, NpdmPath.exefs] := by
  decide!

/-- C17, amended: on a cache miss for an identity served by the alternate
loader, when the primary metadata parses and loading the original metadata does
not succeed, whether its file cannot be opened or its bytes fail to parse,
`LoadNpdm` returns success: it stores the primary record with the identity
field set, and the primary buffer carries the stamped identity and no
adaptation. -/
theorem original_failure_is_skipped (L : LoaderLayout) (env : LoaderEnv) (tid : Nat)
    (s : LoaderState) (hov : env.ShouldOverrideContentsWithHBL tid = true)
    (hprimary : (LoadNpdmInternal L.toNpdmLayout env.fw_700 (OpenNpdm env tid).1
      s.g_npdm_cache).1 = ResultSuccess)
    (horiginal : (LoadNpdmInternal L.toNpdmLayout env.fw_700 (env.fopen NpdmPath.exefs)
      s.g_original_npdm_cache).1 ≠ ResultSuccess) :
    (LoadNpdm L env tid s).rc = ResultSuccess
      ∧ (LoadNpdm L env tid s).out = some
          { (LoadNpdmInternal L.toNpdmLayout env.fw_700 (OpenNpdm env tid).1
              s.g_npdm_cache).2.info with title_id := tid }
      ∧ (LoadNpdm L env tid s).state.g_npdm_cache.buffer =
          stampedBuffer L tid
            (LoadNpdmInternal L.toNpdmLayout env.fw_700 (OpenNpdm env tid).1 s.g_npdm_cache).2 := by
  unfold LoadNpdm
  simp only [hprimary, ne_eq, not_true_eq_false, if_false, hov, if_true, horiginal]
  exact ⟨trivial, trivial, rfl⟩

/-- C17, amended, at a concrete input: the primary file is sound and the
original file holds three bytes. -/
theorem original_failure_is_skipped_witness :
    (hblEnv soundFile (fileOf [1, 2, 3])).ShouldOverrideContentsWithHBL 5 = true
      ∧ (LoadNpdmInternal loaderLayout.toNpdmLayout (hblEnv soundFile (fileOf [1, 2, 3])).fw_700
          (OpenNpdm (hblEnv soundFile (fileOf [1, 2, 3])) 5).1
          (initialState npdmLayout).g_npdm_cache).1 = ResultSuccess
      ∧ (LoadNpdmInternal loaderLayout.toNpdmLayout (hblEnv soundFile (fileOf [1, 2, 3])).fw_700
          ((hblEnv soundFile (fileOf [1, 2, 3])).fopen NpdmPath.exefs)
          (initialState npdmLayout).g_npdm_cache).1 ≠ ResultSuccess
      ∧ (LoadNpdm loaderLayout (hblEnv soundFile (fileOf [1, 2, 3])) 5
          (initialState npdmLayout)).rc = ResultSuccess :=
  ⟨by decide, by decide!, by decide!,
    (original_failure_is_skipped loaderLayout (hblEnv soundFile (fileOf [1, 2, 3])) 5
      (initialState npdmLayout) (by decide) (by decide!) (by decide!)).1⟩

/-! ## C21: the rewrite of the application type and validation -/

/-- The rewrite loop stores `rewriteWord` of each word. -/
theorem fixApplicationType_cons (t w : Nat) (ws : List Nat) :
    fixApplicationType t (w :: ws) = rewriteWord t w :: fixApplicationType t ws := rfl

/-- The rewrite keeps the number of words. -/
theorem fixApplicationType_length (t : Nat) (ws : List Nat) :
    (fixApplicationType t ws).length = ws.length := by
  induction ws with
  | nil => rfl
  | cons w ws ih => rw [fixApplicationType_cons, List.length_cons, List.length_cons, ih]

/-- A word that is not of kind 13 is left as it is. -/
theorem rewriteWord_of_not13 (t : Nat) {w : Nat} (h : ¬ w % 16384 = 8191) :
    rewriteWord t w = w := by
  simp [rewriteWord, and_0x3FFF, h]

/-- The rewrite keeps the 14 low bits of every word, hence its kind tag. -/
theorem rewriteWord_low (t w : Nat) : rewriteWord t w % 16384 = w % 16384 := by
  unfold rewriteWord
  split_ifs
  · have := fixWord_low w t
    norm_num at this
    exact this
  · rfl

/-- The source reaches `case 13` exactly on the words of kind 13. -/
theorem lowBits_eq_13_iff (w : Nat) : (lowBitsLoop 32 w 0).2 = 13 ↔ HasKind w 13 := by
  obtain ⟨k, hk⟩ := exists_kind w
  have hc := lowBitsLoop_count k 32 w 0 hk
  constructor
  · intro h
    have : k = 13 := by omega
    exact this ▸ hk
  · intro h
    exact (lowBits_of_kind (by decide) h).1

/-- The kernel-flags loop does not see the rewrite. -/
theorem kernelFlagsLoop_fix (t desc : Nat) (R : List Nat) :
    kernelFlagsLoop desc (fixApplicationType t R) = kernelFlagsLoop desc R := by
  induction R with
  | nil => rfl
  | cons r rs ih =>
    rw [fixApplicationType_cons]
    by_cases h : r % 16384 = 8191
    · have h2 := rewriteWord_low t r
      have a : ¬ rewriteWord t r % 16 = 7 := by omega
      have b : ¬ r % 16 = 7 := by omega
      simp only [kernelFlagsLoop, and_0xF, a, b, if_false, ih]
    · rw [rewriteWord_of_not13 t h]
      simp only [kernelFlagsLoop, ih]

/-- The syscall-mask loop does not see the rewrite. -/
theorem syscallMaskLoop_fix (t desc : Nat) (R : List Nat) :
    syscallMaskLoop desc (fixApplicationType t R) = syscallMaskLoop desc R := by
  induction R with
  | nil => rfl
  | cons r rs ih =>
    rw [fixApplicationType_cons]
    by_cases h : r % 16384 = 8191
    · have h2 := rewriteWord_low t r
      have a : ¬ rewriteWord t r % 32 = 15 := by omega
      have b : ¬ r % 32 = 15 := by omega
      simp only [syscallMaskLoop, and_0x1F, a, b, if_false, ih]
    · rw [rewriteWord_of_not13 t h]
      simp only [syscallMaskLoop, ih]

/-- The map-page loop does not see the rewrite. -/
theorem mapPageLoop_fix (t desc : Nat) (R : List Nat) :
    mapPageLoop desc (fixApplicationType t R) = mapPageLoop desc R := by
  induction R with
  | nil => rfl
  | cons r rs ih =>
    rw [fixApplicationType_cons]
    by_cases h : r % 16384 = 8191
    · have h2 := rewriteWord_low t r
      have a : ¬ rewriteWord t r % 256 = 127 := by omega
      have b : ¬ r % 256 = 127 := by omega
      simp only [mapPageLoop, and_0xFF, a, b, if_false, ih]
    · rw [rewriteWord_of_not13 t h]
      simp only [mapPageLoop, ih]

/-- The handle-table loop does not see the rewrite. -/
theorem handleTableLoop_fix (t desc : Nat) (R : List Nat) :
    handleTableLoop desc (fixApplicationType t R) = handleTableLoop desc R := by
  induction R with
  | nil => rfl
  | cons r rs ih =>
    rw [fixApplicationType_cons]
    by_cases h : r % 16384 = 8191
    · have h2 := rewriteWord_low t r
      have a : ¬ rewriteWord t r % 65536 = 32767 := by omega
      have b : ¬ r % 65536 = 32767 := by omega
      simp only [handleTableLoop, and_0xFFFF, a, b, if_false, ih]
    · rw [rewriteWord_of_not13 t h]
      simp only [handleTableLoop, ih]

/-- The inner IRQ loop does not see the rewrite. -/
theorem irqFoundLoop_fix (t irq : Nat) (R : List Nat) : ∀ found : Bool,
    irqFoundLoop irq found (fixApplicationType t R) = irqFoundLoop irq found R := by
  induction R with
  | nil => intro found; rfl
  | cons r rs ih =>
    intro found
    rw [fixApplicationType_cons]
    by_cases h : r % 16384 = 8191
    · have h2 := rewriteWord_low t r
      have a : ¬ rewriteWord t r % 4096 = 2047 := by omega
      have b : ¬ r % 4096 = 2047 := by omega
      simp only [irqFoundLoop, and_0xFFF, a, b, if_false, ih]
    · rw [rewriteWord_of_not13 t h]
      simp only [irqFoundLoop, ih]

/-- The IRQ-pair check does not see the rewrite. -/
theorem irqPairLoop_fix (t : Nat) (R : List Nat) : ∀ (n desc : Nat),
    irqPairLoop (fixApplicationType t R) n desc = irqPairLoop R n desc := by
  intro n
  induction n with
  | zero => intro desc; rfl
  | succ n ih =>
    intro desc
    simp only [irqPairLoop, irqFoundLoop_fix, ih]

/-- The searches of cases 14 and 16 do not see the rewrite: a kind-13 word
never carries their tag, before or after. -/
theorem firstPayload_fix (t mask tag shift m : Nat) (hmask : ∀ r, r &&& mask = r % m)
    (hm : ∀ r, r % 16384 = 8191 → ¬ r % m = tag) (R : List Nat) :
    firstPayload mask tag shift (fixApplicationType t R) = firstPayload mask tag shift R := by
  induction R with
  | nil => rfl
  | cons r rs ih =>
    rw [fixApplicationType_cons]
    by_cases h : r % 16384 = 8191
    · have h2 := rewriteWord_low t r
      have a : ¬ rewriteWord t r % m = tag := hm _ (by omega)
      have b : ¬ r % m = tag := hm _ h
      simp only [firstPayload, hmask, a, b, if_false, ih]
    · rw [rewriteWord_of_not13 t h]
      simp only [firstPayload, ih]

/-- The pair search of case 6 does not see the rewrite. -/
theorem mapRangeLoop_fix (t desc next_desc base_addr base_end : Nat) :
    ∀ (n : Nat) (R : List Nat), R.length ≤ n →
      mapRangeLoop desc next_desc base_addr base_end (fixApplicationType t R)
        = mapRangeLoop desc next_desc base_addr base_end R := by
  intro n
  induction n with
  | zero =>
    intro R hn
    have : R = [] := List.length_eq_zero.mp (by omega)
    rw [this]
    rfl
  | succ n ih =>
    intro R hn
    rcases R with _ | ⟨r, _ | ⟨r_next, rs⟩⟩
    · rfl
    · rfl
    · simp only [List.length_cons] at hn
      have ih1 := ih (r_next :: rs) (by simp only [List.length_cons]; omega)
      have ih2 := ih rs (by omega)
      rw [fixApplicationType_cons] at ih1
      rw [fixApplicationType_cons, fixApplicationType_cons]
      by_cases h : r % 16384 = 8191
      · have h2 := rewriteWord_low t r
        have a : ¬ rewriteWord t r % 128 = 63 := by omega
        have b : ¬ r % 128 = 63 := by omega
        simp only [mapRangeLoop, and_0x7F, a, b, if_false, ih1]
      · rw [rewriteWord_of_not13 t h]
        by_cases hn13 : r_next % 16384 = 8191
        · have h2 := rewriteWord_low t r_next
          have a : ¬ rewriteWord t r_next % 128 = 63 := by omega
          have b : ¬ r_next % 128 = 63 := by omega
          by_cases hr : r % 128 = 63
          · simp only [mapRangeLoop, and_0x7F, hr, a, b, if_true, ne_eq, not_false_eq_true]
          · rw [← rewriteWord_of_not13 t h] at hr
            rw [rewriteWord_of_not13 t h] at hr
            simp only [mapRangeLoop, and_0x7F, hr, if_false, ih1]
        · rw [rewriteWord_of_not13 t hn13] at ih1 ⊢
          simp only [mapRangeLoop, ih1, ih2]

/-- The map-range check does not see the rewrite of the restriction words. -/
theorem mapRangeCheck_fix (t desc next_cap : Nat) (R : List Nat) :
    mapRangeCheck desc next_cap (fixApplicationType t R) = mapRangeCheck desc next_cap R := by
  unfold mapRangeCheck
  simp only [fixApplicationType_length, mapRangeLoop_fix t _ _ _ _ R.length R le_rfl]

/-- The step on a word that is not of kind 13 does not see the rewrite of the
restriction words. -/
theorem step_fix_restrictions (t : Nat) (R : List Nat) {q : Nat} (rest : List Nat)
    (h : ¬ HasKind q 13) :
    ValidateCapabilityAgainstRestrictions (fixApplicationType t R) q rest
      = ValidateCapabilityAgainstRestrictions R q rest := by
  have h13 : (lowBitsLoop 32 q 0).2 ≠ 13 := fun e => h ((lowBits_eq_13_iff q).1 e)
  have h14 : firstPayload 0x7FFF 0x3FFF 15 (fixApplicationType t R)
      = firstPayload 0x7FFF 0x3FFF 15 R :=
    firstPayload_fix t _ _ _ 32768 and_0x7FFF (fun r hr => by omega) R
  have h16 : firstPayload 0x1FFFF 0xFFFF 17 (fixApplicationType t R)
      = firstPayload 0x1FFFF 0xFFFF 17 R :=
    firstPayload_fix t _ _ _ 131072 and_0x1FFFF (fun r hr => by omega) R
  unfold ValidateCapabilityAgainstRestrictions
  simp only [kernelFlagsLoop_fix, syscallMaskLoop_fix, mapRangeCheck_fix, mapPageLoop_fix,
    irqPairLoop_fix, handleTableLoop_fix, h14, h16]
  split <;> first | rfl | (exfalso; apply h13; assumption)

/-- The first kind-13 word after the rewrite is the rewritten first kind-13
word. -/
theorem firstOfKind13_fix (t : Nat) (R : List Nat) :
    firstOfKind 13 (fixApplicationType t R) = (firstOfKind 13 R).map (rewriteWord t) := by
  induction R with
  | nil => rfl
  | cons r rs ih =>
    rw [fixApplicationType_cons]
    have h2 := rewriteWord_low t r
    by_cases h : r % 16384 = 8191
    · have hk : HasKind r 13 := by simpa [HasKind] using h
      have hk2 : HasKind (rewriteWord t r) 13 := by
        have : rewriteWord t r % 16384 = 8191 := by omega
        simpa [HasKind] using this
      simp [firstOfKind, List.find?, hk, hk2]
    · have hk : ¬ HasKind r 13 := by simpa [HasKind] using h
      have hk2 : ¬ HasKind (rewriteWord t r) 13 := by
        have : ¬ rewriteWord t r % 16384 = 8191 := by omega
        simpa [HasKind] using this
      have e1 : firstOfKind 13 (r :: rs) = firstOfKind 13 rs := by
        simp [firstOfKind, List.find?, hk]
      have e2 : firstOfKind 13 (rewriteWord t r :: fixApplicationType t rs)
          = firstOfKind 13 (fixApplicationType t rs) := by
        simp [firstOfKind, List.find?, hk2]
      rw [e1, e2, ih]

/-- A successful step stays successful when the restriction words, the word it
is called on and the words after it are all rewritten; what it leaves is the
rewrite of what it left before. -/
theorem step_fix (t : Nat) (R : List Nat) (q : Nat) (rest rem : List Nat)
    (hR : ∃ r ∈ R, HasKind r 13)
    (h : ValidateCapabilityAgainstRestrictions R q rest = (ResultSuccess, rem)) :
    ValidateCapabilityAgainstRestrictions (fixApplicationType t R) (rewriteWord t q)
        (fixApplicationType t rest)
      = (ResultSuccess, fixApplicationType t rem) := by
  by_cases hq : HasKind q 13
  · have hq2 : q % 16384 = 8191 := by simpa [HasKind] using hq
    have hlow := rewriteWord_low t q
    have hq3 : HasKind (rewriteWord t q) 13 := by
      have : rewriteWord t q % 16384 = 8191 := by omega
      simpa [HasKind] using this
    obtain ⟨r0, hr0, hk0⟩ := hR
    have hsome : (firstOfKind 13 R).isSome = true := by
      rw [firstOfKind, List.find?_isSome]
      exact ⟨r0, hr0, by simpa using hk0⟩
    obtain ⟨r, hr⟩ := Option.isSome_iff_exists.1 hsome
    have hrk : r % 16384 = 8191 := by
      have := List.find?_some hr
      simpa [HasKind] using this
    rw [step_kind13 R rest hq, firstPayload_kind13, hr] at h
    rw [step_kind13 _ _ hq3, firstPayload_kind13, firstOfKind13_fix, hr]
    simp only [appTypePayload, Option.map_some'] at h ⊢
    by_cases heq : q / 2 ^ 14 = r / 2 ^ 14
    · have hqr : q = r := by
        norm_num at heq
        omega
      simp only [heq, if_true, Prod.mk.injEq, true_and] at h
      rw [hqr, ← h]
      simp
    · exfalso
      simp only [heq, if_false, Prod.mk.injEq] at h
      exact absurd h.1 (by decide)
  · have hq2 : ¬ q % 16384 = 8191 := by simpa [HasKind] using hq
    rw [rewriteWord_of_not13 t hq2, step_fix_restrictions t R _ hq]
    by_cases h6 : HasKind q 6
    · cases rest with
      | nil =>
        rw [step_kind6_last R h6] at h
        simp at h
      | cons n rest2 =>
        rw [step_kind6 R n rest2 h6] at h
        simp only [Prod.mk.injEq] at h
        obtain ⟨hcheck, hrem⟩ := h
        have hn : n % 128 = 63 := by
          by_contra hne
          simp [mapRangeCheck, and_0x7F, hne] at hcheck
        have hn13 : ¬ n % 16384 = 8191 := by omega
        rw [fixApplicationType_cons, rewriteWord_of_not13 t hn13, step_kind6 R n _ h6,
          hcheck, hrem]
    · rw [step_not_kind6 R rest h6] at h
      rw [step_not_kind6 R _ h6]
      simp only [Prod.mk.injEq] at h ⊢
      exact ⟨h.1, by rw [h.2]⟩

/-- A valid request stays valid when request and restrictions are rewritten. -/
theorem validate_fix (t : Nat) (R : List Nat) (hR : ∃ r ∈ R, HasKind r 13) :
    ∀ (n : Nat) (Q : List Nat), Q.length ≤ n →
      ValidateCapabilities R Q = some ResultSuccess →
      ValidateCapabilities (fixApplicationType t R) (fixApplicationType t Q)
        = some ResultSuccess := by
  intro n
  induction n with
  | zero =>
    intro Q hn _
    have : Q = [] := List.length_eq_zero.mp (by omega)
    rw [this]
    rfl
  | succ n ih =>
    intro Q hn h
    cases Q with
    | nil => rfl
    | cons q rest =>
      have hl := step_length R q rest
      rw [validate_cons] at h
      rw [fixApplicationType_cons, validate_cons]
      rcases hstep : ValidateCapabilityAgainstRestrictions R q rest with ⟨rc, rem⟩
      rw [hstep] at h hl
      simp only [List.length_cons] at hl hn
      cases rc <;> simp only at h <;> try (exact absurd h (by simp))
      rw [step_fix t R q rest rem hR hstep]
      exact ih rem (by omega) h

/-- C21: the rewrite of the application type preserves successful validation.
For every type `t` (the 3-bit types among them), every restriction list `R`
that contains at least one kind-13 word and every requested list `Q`, if
validating `Q` against `R` succeeds then validating the rewritten `Q` against
the rewritten `R` succeeds, the rewrite being the loop of `LoadNpdm` that puts
`t` into bits 14..16 of every word with `(w & 0x3FFF) == 0x1FFF` and leaves the
other words unchanged. -/
theorem rewrite_preserves_validation (t : Nat) (R Q : List Nat)
    (hR : ∃ r ∈ R, HasKind r 13)
    (h : ValidateCapabilities R Q = some ResultSuccess) :
    ValidateCapabilities (fixApplicationType t R) (fixApplicationType t Q)
      = some ResultSuccess :=
  validate_fix t R hR Q.length Q le_rfl h

/-- C21 at a concrete input: type 1 is rewritten to type 2 in a restriction list
and a request that also hold a syscall mask, kernel flags and a map-range pair. -/
theorem rewrite_preserves_validation_witness :
    (∃ r ∈ [0x30029F7, 0x5FFF, syscallWord 2 7, 0x803F, 0x203F], HasKind r 13)
      ∧ ValidateCapabilities [0x30029F7, 0x5FFF, syscallWord 2 7, 0x803F, 0x203F]
          [0x883F, 0x83F, 0x5FFF, syscallWord 2 5] = some ResultSuccess
      ∧ fixApplicationType 2 [0x883F, 0x83F, 0x5FFF, syscallWord 2 5]
          = [0x883F, 0x83F, 0x9FFF, syscallWord 2 5]
      ∧ ValidateCapabilities
          (fixApplicationType 2 [0x30029F7, 0x5FFF, syscallWord 2 7, 0x803F, 0x203F])
          (fixApplicationType 2 [0x883F, 0x83F, 0x5FFF, syscallWord 2 5])
          = some ResultSuccess :=
  ⟨by decide, by decide, by decide,
    rewrite_preserves_validation 2 [0x30029F7, 0x5FFF, syscallWord 2 7, 0x803F, 0x203F]
      [0x883F, 0x83F, 0x5FFF, syscallWord 2 5] (by decide) (by decide)⟩

/-! ## C19: buffers shorter than the header, with the reads recorded -/

/-- The first component of a conditional, branch by branch. -/
theorem ite_fst {α β : Type} {c : Prop} [Decidable c] {a b : α × β} {a2 b2 : α}
    (h1 : a.1 = a2) (h2 : ¬ c → b.1 = b2) :
    (if c then a else b).1 = if c then a2 else b2 := by
  split_ifs with h
  · exact h1
  · exact h2 h

/-- Three short-circuited tests against one test of their disjunction. -/
theorem ite_fst_or3 {α β : Type} {p q r : Prop} [Decidable p] [Decidable q] [Decidable r]
    {x1 x2 x3 y : α × β} {z w : α} (h1 : x1.1 = z) (h2 : x2.1 = z) (h3 : x3.1 = z)
    (h4 : y.1 = w) :
    (if p then x1 else if q then x2 else if r then x3 else y).1
      = if p ∨ q ∨ r then z else w := by
  by_cases hp : p <;> by_cases hq : q <;> by_cases hr : r <;> simp [hp, hq, hr, h1, h2, h3, h4]

/-- The three short-circuited tests of a sub-region against `subRegionRejected`. -/
theorem ite_fst_sub {α β : Type} {offset size sizeof_parent parent_size : Nat}
    {x1 x2 x3 y : α × β} {z w : α} (h1 : x1.1 = z) (h2 : x2.1 = z) (h3 : x3.1 = z)
    (h4 : y.1 = w) :
    (if size > parent_size then x1 else if offset < sizeof_parent then x2
      else if (offset + size) % 2 ^ 32 > parent_size then x3 else y).1
      = if subRegionRejected offset size sizeof_parent parent_size = true then z else w := by
  unfold subRegionRejected
  simp only [Bool.or_eq_true, decide_eq_true_eq]
  split_ifs <;> first | assumption | (exfalso; tauto)

/-- The parser with recorded reads returns and leaves what `LoadNpdmInternal`
returns and leaves. -/
theorem LoadNpdmInternalTraced_result (L : NpdmLayout) (fw_700 : Bool) (f : Option NpdmFile)
    (cache : NpdmCache) :
    (LoadNpdmInternalTraced L fw_700 f cache).1 = LoadNpdmInternal L fw_700 f cache := by
  unfold LoadNpdmInternalTraced LoadNpdmInternal
  cases f with
  | none => rfl
  | some f =>
    dsimp only [tracedReadU32, tracedReadU8, tracedSubRegion]
    refine ite_fst ?_ (fun _ => ?_)
    · rfl
    refine ite_fst ?_ (fun _ => ?_)
    · rfl
    refine ite_fst ?_ (fun _ => ?_)
    · rfl
    refine ite_fst ?_ (fun _ => ?_)
    · rfl
    refine ite_fst ?_ (fun _ => ?_)
    · rfl
    refine ite_fst_or3 ?_ ?_ ?_ ?_
    · rfl
    · rfl
    · rfl
    refine ite_fst ?_ (fun _ => ?_)
    · rfl
    refine ite_fst_sub ?_ ?_ ?_ ?_
    · rfl
    · rfl
    · rfl
    refine ite_fst_sub ?_ ?_ ?_ ?_
    · rfl
    · rfl
    · rfl
    refine ite_fst_sub ?_ ?_ ?_ ?_
    · rfl
    · rfl
    · rfl
    refine ite_fst_or3 ?_ ?_ ?_ ?_
    · rfl
    · rfl
    · rfl
    refine ite_fst ?_ (fun _ => ?_)
    · rfl
    refine ite_fst_sub ?_ ?_ ?_ ?_
    · rfl
    · rfl
    · rfl
    refine ite_fst_sub ?_ ?_ ?_ ?_
    · rfl
    · rfl
    · rfl
    refine ite_fst_sub ?_ ?_ ?_ ?_
    · rfl
    · rfl
    · rfl
    rfl

/-- C19: for every present file whose length is below the header size (the
header fitting in the cache buffer, the read delivering the whole file), the
parser returns `ResultLoaderInvalidMeta` before it reads any member of the
buffer: the run with recorded reads ends with an empty log of reads, with
every view of the record unset, the header view included; and
`LoadNpdmInternal` returns and leaves the same. -/
theorem short_buffer_rejected_without_reads (L : NpdmLayout) (fw_700 : Bool) (f : NpdmFile)
    (cache : NpdmCache) (hlen : f.contents.length < L.sizeof_NpdmHeader)
    (hcap : L.sizeof_NpdmHeader ≤ L.sizeof_buffer) (hread : f.contents.length ≤ f.readable) :
    LoadNpdmInternalTraced L fw_700 (some f) cache =
        ((ResultLoaderInvalidMeta,
          { info := {}, buffer := f.contents ++ cache.buffer.drop f.contents.length }), [])
      ∧ LoadNpdmInternal L fw_700 (some f) cache =
        (ResultLoaderInvalidMeta,
          { info := {}, buffer := f.contents ++ cache.buffer.drop f.contents.length }) := by
  have h1 : ¬ f.contents.length > L.sizeof_buffer := by omega
  have h2 : min f.readable f.contents.length = f.contents.length := Nat.min_eq_right hread
  have ht : LoadNpdmInternalTraced L fw_700 (some f) cache =
      ((ResultLoaderInvalidMeta,
        { info := {}, buffer := f.contents ++ cache.buffer.drop f.contents.length }), []) := by
    simp [LoadNpdmInternalTraced, h1, h2, hlen]
  refine ⟨ht, ?_⟩
  rw [← LoadNpdmInternalTraced_result, ht]

/-- C19 at a concrete input: a 3-byte file that begins like the magic is
rejected with no read, while an 0x80-byte file with a blank header is rejected
after the reads of magic, flags and ACI0 offset. -/
theorem short_buffer_rejected_without_reads_witness :
    (fileOf [0x4D, 0x45, 0x54]).contents.length < npdmLayout.sizeof_NpdmHeader
      ∧ npdmLayout.sizeof_NpdmHeader ≤ npdmLayout.sizeof_buffer
      ∧ (fileOf [0x4D, 0x45, 0x54]).contents.length ≤ (fileOf [0x4D, 0x45, 0x54]).readable
      ∧ (LoadNpdmInternalTraced npdmLayout true (some (fileOf [0x4D, 0x45, 0x54]))
          (zeroCache npdmLayout)).2 = []
      ∧ (LoadNpdmInternalTraced npdmLayout true (some (fileOf [0x4D, 0x45, 0x54]))
          (zeroCache npdmLayout)).1.1 = ResultLoaderInvalidMeta
      ∧ (LoadNpdmInternalTraced npdmLayout true (some (fileOf (headerBytes 0 0 0 0)))
          (zeroCache npdmLayout)).2 = [0x0, 0xC, 0x70] :=
  ⟨by decide, by decide, by decide,
    congrArg Prod.snd
      (short_buffer_rejected_without_reads npdmLayout true (fileOf [0x4D, 0x45, 0x54])
        (zeroCache npdmLayout) (by decide) (by decide) (by decide)).1,
    congrArg (fun r => r.1.1)
      (short_buffer_rejected_without_reads npdmLayout true (fileOf [0x4D, 0x45, 0x54])
        (zeroCache npdmLayout) (by decide) (by decide) (by decide)).1,
    by decide!⟩

end NpdmUtils
